import Mathlib

/-!
Verification of the TML MIR-to-Cranelift bridge (`src/compiler/cranelift`).

This file shallowly embeds the parts of the bridge needed to settle the
claims: the binary MIR reader (`mir_reader.rs`), the MIR data model
(`mir_types.rs`), the type size/alignment/layout computations (`types.rs`),
fragments of the translator (`translate.rs`) and the FFI result facade
(`lib.rs`).

Modelling conventions:
- Bytes are `Nat` (each intended < 256); multi-byte reads combine bytes
  little-endian exactly as the source does.
- Machine `u32` arithmetic wraps; where overflow can occur the embedding
  applies an explicit `% 2^32`.
- `f64` values are represented by their 64-bit little-endian bit pattern
  (a `Nat`); the bridge never computes with float values, it only moves
  them, so the bit pattern is a faithful representation.
- `String.from_utf8_lossy` is modelled byte-transparently (each byte
  becomes one character); the lossy decoder never fails, so error
  behaviour is unchanged, and no claim depends on multi-byte decoding.
- Stateful Rust code (`&mut self` readers, the translator) is embedded by
  explicit state passing.
-/

namespace Tml

/-- Error type of the bridge, mirroring `error.rs BridgeError`. -/
inductive BridgeError where
  | mirDeserialize (msg : String)
  | translation (msg : String)
  | codegen (msg : String)
  | unsupportedInstruction (msg : String)
  | invalidTarget (msg : String)
deriving Repr, DecidableEq

/-- Display of a bridge error, mirroring the `Display` impl in `error.rs`. -/
def BridgeError.toMessage : BridgeError → String
  | .mirDeserialize msg => "MIR deserialization error: " ++ msg
  | .translation msg => "translation error: " ++ msg
  | .codegen msg => "codegen error: " ++ msg
  | .unsupportedInstruction msg => "unsupported instruction: " ++ msg
  | .invalidTarget msg => "invalid target: " ++ msg

/-- Primitive MIR types, mirroring `mir_types.rs PrimitiveType`. -/
inductive PrimitiveType where
  | unit | bool | i8 | i16 | i32 | i64 | i128
  | u8 | u16 | u32 | u64 | u128 | f32 | f64 | ptr | str
deriving Repr, DecidableEq

/-- Decode a primitive type tag, mirroring `PrimitiveType::from_u8`. -/
def PrimitiveType.from_u8 (v : Nat) : Option PrimitiveType :=
  match v with
  | 0 => some .unit
  | 1 => some .bool
  | 2 => some .i8
  | 3 => some .i16
  | 4 => some .i32
  | 5 => some .i64
  | 6 => some .i128
  | 7 => some .u8
  | 8 => some .u16
  | 9 => some .u32
  | 10 => some .u64
  | 11 => some .u128
  | 12 => some .f32
  | 13 => some .f64
  | 14 => some .ptr
  | 15 => some .str
  | _ => none

/-- MIR types, mirroring `mir_types.rs MirType`. -/
inductive MirType where
  | primitive (p : PrimitiveType)
  | pointer (is_mut : Bool) (pointee : MirType)
  | array (size : Nat) (element : MirType)
  | slice (element : MirType)
  | tuple (elements : List MirType)
  | struct (name : String) (type_args : List MirType)
  | enum (name : String) (type_args : List MirType)
  | function (params : List MirType) (return_type : MirType)

/-- SSA value reference, mirroring `mir_types.rs Value`. -/
structure Value where
  id : Nat
deriving Repr, DecidableEq

/-- Binary operators, mirroring `mir_types.rs BinOp`. -/
inductive BinOp where
  | add | sub | mul | div | mod | eq | ne | lt | le | gt | ge
  | and | or | bitAnd | bitOr | bitXor | shl | shr
deriving Repr, DecidableEq

/-- Decode a binary operator tag, mirroring `BinOp::from_u8`. -/
def BinOp.from_u8 (v : Nat) : Option BinOp :=
  match v with
  | 0 => some .add
  | 1 => some .sub
  | 2 => some .mul
  | 3 => some .div
  | 4 => some .mod
  | 5 => some .eq
  | 6 => some .ne
  | 7 => some .lt
  | 8 => some .le
  | 9 => some .gt
  | 10 => some .ge
  | 11 => some .and
  | 12 => some .or
  | 13 => some .bitAnd
  | 14 => some .bitOr
  | 15 => some .bitXor
  | 16 => some .shl
  | 17 => some .shr
  | _ => none

/-- Comparison predicate, mirroring `BinOp::is_comparison`. -/
def BinOp.is_comparison : BinOp → Bool
  | .eq | .ne | .lt | .le | .gt | .ge => true
  | _ => false

/-- Unary operators, mirroring `mir_types.rs UnaryOp`. -/
inductive UnaryOp where
  | neg | not | bitNot
deriving Repr, DecidableEq

/-- Decode a unary operator tag, mirroring `UnaryOp::from_u8`. -/
def UnaryOp.from_u8 (v : Nat) : Option UnaryOp :=
  match v with
  | 0 => some .neg
  | 1 => some .not
  | 2 => some .bitNot
  | _ => none

/-- Cast kinds, mirroring `mir_types.rs CastKind`. -/
inductive CastKind where
  | bitcast | trunc | zext | sext | fptrunc | fpext
  | fptosi | fptoui | sitofp | uitofp | ptrToInt | intToPtr
deriving Repr, DecidableEq

/-- Decode a cast kind tag, mirroring `CastKind::from_u8`. -/
def CastKind.from_u8 (v : Nat) : Option CastKind :=
  match v with
  | 0 => some .bitcast
  | 1 => some .trunc
  | 2 => some .zext
  | 3 => some .sext
  | 4 => some .fptrunc
  | 5 => some .fpext
  | 6 => some .fptosi
  | 7 => some .fptoui
  | 8 => some .sitofp
  | 9 => some .uitofp
  | 10 => some .ptrToInt
  | 11 => some .intToPtr
  | _ => none

/-- Module-level constants, mirroring `mir_types.rs Constant`.
The `f64` payload of `float` is kept as its raw 64-bit pattern. -/
inductive Constant where
  | int (value : Int) (bit_width : Nat) (is_signed : Bool)
  | float (bits : Nat) (is_f64 : Bool)
  | bool (b : Bool)
  | string (s : String)
  | unit

/-- Instructions, mirroring `mir_types.rs Instruction`. -/
inductive Instruction where
  | binary (op : BinOp) (left : Value) (right : Value)
  | unary (op : UnaryOp) (operand : Value)
  | load (ptr : Value)
  | store (ptr : Value) (value : Value)
  | alloca (name : String) (alloc_type : MirType)
  | gep (base : Value) (indices : List Value)
  | extractValue (aggregate : Value) (indices : List Nat)
  | insertValue (aggregate : Value) (value : Value) (indices : List Nat)
  | call (func_name : String) (args : List Value) (return_type : MirType)
  | methodCall (receiver : Value) (method_name : String) (args : List Value)
      (return_type : MirType)
  | cast (kind : CastKind) (operand : Value) (target_type : MirType)
  | phi (incoming : List (Value × Nat))
  | constant (c : Constant)
  | select (condition : Value) (true_val : Value) (false_val : Value)
  | structInit (struct_name : String) (fields : List Value)
  | enumInit (enum_name : String) (variant_name : String) (payload : List Value)
  | tupleInit (elements : List Value)
  | arrayInit (element_type : MirType) (elements : List Value)
  | await (poll_value : Value) (poll_type : MirType) (result_type : MirType)
      (suspension_id : Nat)
  | closureInit (func_name : String) (captures : List (String × Value))
      (cap_types : List (String × MirType)) (func_type : MirType)
      (result_type : MirType)

/-- An instruction with its result value id, mirroring `InstructionData`. -/
structure InstructionData where
  result : Nat
  inst : Instruction

/-- Terminators, mirroring `mir_types.rs Terminator`. -/
inductive Terminator where
  | ret (value : Option Value)
  | branch (target : Nat)
  | condBranch (condition : Value) (true_block : Nat) (false_block : Nat)
  | switch (discriminant : Value) (cases : List (Int × Nat)) (default_block : Nat)
  | unreachable

/-- Basic block, mirroring `mir_types.rs BasicBlock`. -/
structure BasicBlock where
  id : Nat
  name : String
  predecessors : List Nat
  instructions : List InstructionData
  terminator : Option Terminator

/-- Function parameter, mirroring `mir_types.rs FunctionParam`. -/
structure FunctionParam where
  name : String
  ty : MirType
  value_id : Nat

/-- MIR function, mirroring `mir_types.rs Function`. -/
structure Function where
  name : String
  is_public : Bool
  params : List FunctionParam
  return_type : MirType
  blocks : List BasicBlock
  next_value_id : Nat
  next_block_id : Nat

/-- Struct field, mirroring `mir_types.rs StructField`. -/
structure StructField where
  name : String
  ty : MirType

/-- Struct definition, mirroring `mir_types.rs StructDef`. -/
structure StructDef where
  name : String
  type_params : List String
  fields : List StructField

/-- Enum variant, mirroring `mir_types.rs EnumVariant`. -/
structure EnumVariant where
  name : String
  payload_types : List MirType

/-- Enum definition, mirroring `mir_types.rs EnumDef`. -/
structure EnumDef where
  name : String
  type_params : List String
  variants : List EnumVariant

/-- MIR module, mirroring `mir_types.rs Module`. -/
structure Module where
  name : String
  structs : List StructDef
  enums : List EnumDef
  functions : List Function
  constants : List (String × Constant)

/-! ## The binary MIR reader (`mir_reader.rs`) -/

/-- The magic number "TMIR" from `mir_reader.rs`. -/
def MIR_MAGIC : Nat := 0x544D4952

/-- The supported major version from `mir_reader.rs`. -/
def MIR_VERSION_MAJOR : Nat := 1

/-- Reader state: the input byte slice and the cursor,
mirroring `MirBinaryReader`. -/
structure MirBinaryReader where
  data : List Nat
  pos : Nat
deriving Repr, DecidableEq

/-- The reader computation type: a `&mut self` method of `MirBinaryReader`
returning `BridgeResult` becomes a state-passing function that returns the
result together with the updated reader. -/
def ReaderM (α : Type) : Type := MirBinaryReader → Except BridgeError α × MirBinaryReader

/-- Pure computation in the reader monad. -/
def ReaderM.pure {α : Type} (a : α) : ReaderM α := fun r => (.ok a, r)

/-- Sequencing in the reader monad; an error short-circuits, keeping the
reader state at the point of failure, exactly like an early `return Err`
in a Rust method that has already mutated `self`. -/
def ReaderM.bind {α β : Type} (m : ReaderM α) (f : α → ReaderM β) : ReaderM β :=
  fun r =>
    match m r with
    | (.ok a, r₂) => f a r₂
    | (.error e, r₂) => (.error e, r₂)

instance : Monad ReaderM where
  pure := ReaderM.pure
  bind := ReaderM.bind

/-- Fail with a `MirDeserialize` error, leaving the state unchanged. -/
def throwMir {α : Type} (msg : String) : ReaderM α :=
  fun r => (.error (.mirDeserialize msg), r)

/-- Read one byte, mirroring `read_u8`. -/
def read_u8 : ReaderM Nat := fun r =>
  if r.pos ≥ r.data.length then
    (.error (.mirDeserialize "unexpected EOF reading u8"), r)
  else
    (.ok (r.data.getD r.pos 0), ⟨r.data, r.pos + 1⟩)

/-- Read a little-endian u16, mirroring `read_u16`. -/
def read_u16 : ReaderM Nat := fun r =>
  if r.pos + 2 > r.data.length then
    (.error (.mirDeserialize "unexpected EOF reading u16"), r)
  else
    (.ok (r.data.getD r.pos 0 + 256 * r.data.getD (r.pos + 1) 0), ⟨r.data, r.pos + 2⟩)

/-- Read a little-endian u32, mirroring `read_u32`. -/
def read_u32 : ReaderM Nat := fun r =>
  if r.pos + 4 > r.data.length then
    (.error (.mirDeserialize "unexpected EOF reading u32"), r)
  else
    (.ok (r.data.getD r.pos 0 + 256 * r.data.getD (r.pos + 1) 0 +
          65536 * r.data.getD (r.pos + 2) 0 + 16777216 * r.data.getD (r.pos + 3) 0),
     ⟨r.data, r.pos + 4⟩)

/-- Combine eight bytes little-endian into a u64 value. -/
def u64le (b0 b1 b2 b3 b4 b5 b6 b7 : Nat) : Nat :=
  b0 + 2^8 * b1 + 2^16 * b2 + 2^24 * b3 + 2^32 * b4 + 2^40 * b5 + 2^48 * b6 + 2^56 * b7

/-- Read a little-endian u64, mirroring `read_u64`. -/
def read_u64 : ReaderM Nat := fun r =>
  if r.pos + 8 > r.data.length then
    (.error (.mirDeserialize "unexpected EOF reading u64"), r)
  else
    (.ok (u64le (r.data.getD r.pos 0) (r.data.getD (r.pos + 1) 0)
          (r.data.getD (r.pos + 2) 0) (r.data.getD (r.pos + 3) 0)
          (r.data.getD (r.pos + 4) 0) (r.data.getD (r.pos + 5) 0)
          (r.data.getD (r.pos + 6) 0) (r.data.getD (r.pos + 7) 0)),
     ⟨r.data, r.pos + 8⟩)

/-- Reinterpret an unsigned 64-bit value as a signed integer
(twos complement), as `i64::from_le_bytes` does. -/
def i64OfU64 (n : Nat) : Int :=
  if n < 2^63 then (n : Int) else (n : Int) - 2^64

/-- Read a little-endian i64, mirroring `read_i64`. -/
def read_i64 : ReaderM Int := fun r =>
  if r.pos + 8 > r.data.length then
    (.error (.mirDeserialize "unexpected EOF reading i64"), r)
  else
    (.ok (i64OfU64 (u64le (r.data.getD r.pos 0) (r.data.getD (r.pos + 1) 0)
          (r.data.getD (r.pos + 2) 0) (r.data.getD (r.pos + 3) 0)
          (r.data.getD (r.pos + 4) 0) (r.data.getD (r.pos + 5) 0)
          (r.data.getD (r.pos + 6) 0) (r.data.getD (r.pos + 7) 0))),
     ⟨r.data, r.pos + 8⟩)

/-- Read a little-endian f64, mirroring `read_f64`; the value is kept as
its raw 64-bit pattern. -/
def read_f64 : ReaderM Nat := fun r =>
  if r.pos + 8 > r.data.length then
    (.error (.mirDeserialize "unexpected EOF reading f64"), r)
  else
    (.ok (u64le (r.data.getD r.pos 0) (r.data.getD (r.pos + 1) 0)
          (r.data.getD (r.pos + 2) 0) (r.data.getD (r.pos + 3) 0)
          (r.data.getD (r.pos + 4) 0) (r.data.getD (r.pos + 5) 0)
          (r.data.getD (r.pos + 6) 0) (r.data.getD (r.pos + 7) 0)),
     ⟨r.data, r.pos + 8⟩)

/-- Byte-transparent stand-in for `String::from_utf8_lossy`: each byte is
mapped to one character. The lossy decoder never fails, and no claim
depends on multi-byte UTF-8 decoding, so this is behaviourally adequate. -/
def bytesToString (bs : List Nat) : String :=
  String.mk (bs.map Char.ofNat)

/-- Read a length-prefixed string, mirroring `read_string`. Note that the
u32 length prefix is consumed (advancing `pos` by 4) before the bounds
check on the string body. -/
def read_string : ReaderM String :=
  ReaderM.bind read_u32 fun len => fun r =>
    if r.pos + len > r.data.length then
      (.error (.mirDeserialize "unexpected EOF reading string"), r)
    else
      (.ok (bytesToString ((r.data.drop r.pos).take len)), ⟨r.data, r.pos + len⟩)

/-- Read a value id, mirroring `read_value`. -/
def read_value : ReaderM Value := do
  let id ← read_u32
  pure ⟨id⟩

/-- Read `n` items with the given reader, modelling the
`for _ in 0..count` push loops of `mir_reader.rs`. -/
def readN {α : Type} : Nat → ReaderM α → ReaderM (List α)
  | 0, _ => pure []
  | n + 1, m => do
    let a ← m
    let rest ← readN n m
    pure (a :: rest)

/-- Read a type, mirroring `read_type`. The source recursion consumes at
least one byte per nested call, so its depth is bounded by the input
length; the embedding makes this explicit with a fuel parameter, and the
fuel-exhaustion branch is unreachable when fuel exceeds the input length. -/
def read_type : Nat → ReaderM MirType
  | 0 => throwMir "type recursion exhausted"
  | fuel + 1 => do
    let tag ← read_u8
    match tag with
    | 0 => do
      let kind ← read_u8
      match PrimitiveType.from_u8 kind with
      | some prim => pure (.primitive prim)
      | none => throwMir "unknown primitive type"
    | 1 => do
      let is_mut ← read_u8
      let pointee ← read_type fuel
      pure (.pointer (is_mut != 0) pointee)
    | 2 => do
      let size ← read_u64
      let element ← read_type fuel
      pure (.array size element)
    | 3 => do
      let element ← read_type fuel
      pure (.slice element)
    | 4 => do
      let count ← read_u32
      let elements ← readN count (read_type fuel)
      pure (.tuple elements)
    | 5 => do
      let name ← read_string
      let count ← read_u32
      let type_args ← readN count (read_type fuel)
      pure (.struct name type_args)
    | 6 => do
      let name ← read_string
      let count ← read_u32
      let type_args ← readN count (read_type fuel)
      pure (.enum name type_args)
    | 7 => do
      let param_count ← read_u32
      let params ← readN param_count (read_type fuel)
      let return_type ← read_type fuel
      pure (.function params return_type)
    | _ => throwMir "unknown type tag"

/-- Read a module-level constant, mirroring `read_constant_value`. -/
def read_constant_value : ReaderM Constant := do
  let tag ← read_u8
  match tag with
  | 0 => do
    let value ← read_i64
    let bit_width ← read_u8
    let is_signed ← read_u8
    pure (.int value bit_width (is_signed != 0))
  | 1 => do
    let value ← read_f64
    let is_f64 ← read_u8
    pure (.float value (is_f64 != 0))
  | 2 => do
    let value ← read_u8
    pure (.bool (value != 0))
  | 3 => do
    let value ← read_string
    pure (.string value)
  | 4 => pure .unit
  | _ => throwMir "unknown constant tag"

/-- Read one instruction, mirroring `read_instruction`. -/
def read_instruction (fuel : Nat) : ReaderM InstructionData := do
  let result ← read_u32
  let tag ← read_u8
  let inst ← (match tag with
    | 0 => do
      let b ← read_u8
      match BinOp.from_u8 b with
      | none => throwMir "unknown binary op"
      | some op => do
        let left ← read_value
        let right ← read_value
        pure (Instruction.binary op left right)
    | 1 => do
      let b ← read_u8
      match UnaryOp.from_u8 b with
      | none => throwMir "unknown unary op"
      | some op => do
        let operand ← read_value
        pure (Instruction.unary op operand)
    | 2 => do
      let ptr ← read_value
      pure (Instruction.load ptr)
    | 3 => do
      let ptr ← read_value
      let value ← read_value
      pure (Instruction.store ptr value)
    | 4 => do
      let name ← read_string
      let alloc_type ← read_type fuel
      pure (Instruction.alloca name alloc_type)
    | 5 => do
      let base ← read_value
      let count ← read_u32
      let indices ← readN count read_value
      pure (Instruction.gep base indices)
    | 6 => do
      let aggregate ← read_value
      let count ← read_u32
      let indices ← readN count read_u32
      pure (Instruction.extractValue aggregate indices)
    | 7 => do
      let aggregate ← read_value
      let value ← read_value
      let count ← read_u32
      let indices ← readN count read_u32
      pure (Instruction.insertValue aggregate value indices)
    | 8 => do
      let func_name ← read_string
      let count ← read_u32
      let args ← readN count read_value
      let return_type ← read_type fuel
      pure (Instruction.call func_name args return_type)
    | 9 => do
      let receiver ← read_value
      let method_name ← read_string
      let count ← read_u32
      let args ← readN count read_value
      let return_type ← read_type fuel
      pure (Instruction.methodCall receiver method_name args return_type)
    | 10 => do
      let b ← read_u8
      match CastKind.from_u8 b with
      | none => throwMir "unknown cast kind"
      | some kind => do
        let operand ← read_value
        let target_type ← read_type fuel
        pure (Instruction.cast kind operand target_type)
    | 11 => do
      let count ← read_u32
      let incoming ← readN count (do
        let val ← read_value
        let block ← read_u32
        pure (val, block))
      pure (Instruction.phi incoming)
    | 12 => do
      let cval ← read_constant_value
      pure (Instruction.constant cval)
    | 13 => do
      let condition ← read_value
      let true_val ← read_value
      let false_val ← read_value
      pure (Instruction.select condition true_val false_val)
    | 14 => do
      let struct_name ← read_string
      let count ← read_u32
      let fields ← readN count read_value
      pure (Instruction.structInit struct_name fields)
    | 15 => do
      let enum_name ← read_string
      let variant_name ← read_string
      let count ← read_u32
      let payload ← readN count read_value
      pure (Instruction.enumInit enum_name variant_name payload)
    | 16 => do
      let count ← read_u32
      let elements ← readN count read_value
      pure (Instruction.tupleInit elements)
    | 17 => do
      let element_type ← read_type fuel
      let count ← read_u32
      let elements ← readN count read_value
      pure (Instruction.arrayInit element_type elements)
    | 18 => do
      let poll_value ← read_value
      let poll_type ← read_type fuel
      let result_type ← read_type fuel
      let suspension_id ← read_u32
      pure (Instruction.await poll_value poll_type result_type suspension_id)
    | 19 => do
      let func_name ← read_string
      let cap_count ← read_u32
      let captures ← readN cap_count (do
        let cname ← read_string
        let cval ← read_value
        pure (cname, cval))
      let cap_types ← readN cap_count (do
        let tname ← read_string
        let ttype ← read_type fuel
        pure (tname, ttype))
      let func_type ← read_type fuel
      let result_type ← read_type fuel
      pure (Instruction.closureInit func_name captures cap_types func_type result_type)
    | _ => throwMir "unknown instruction tag")
  pure ⟨result, inst⟩

/-- Read a terminator, mirroring `read_terminator`. -/
def read_terminator : ReaderM Terminator := do
  let tag ← read_u8
  match tag with
  | 0 => do
    let has_value ← read_u8
    if has_value != 0 then do
      let v ← read_value
      pure (Terminator.ret (some v))
    else
      pure (Terminator.ret none)
  | 1 => do
    let target ← read_u32
    pure (Terminator.branch target)
  | 2 => do
    let condition ← read_value
    let true_block ← read_u32
    let false_block ← read_u32
    pure (Terminator.condBranch condition true_block false_block)
  | 3 => do
    let discriminant ← read_value
    let count ← read_u32
    let cases ← readN count (do
      let val ← read_i64
      let block ← read_u32
      pure (val, block))
    let default_block ← read_u32
    pure (Terminator.switch discriminant cases default_block)
  | 4 => pure Terminator.unreachable
  | _ => throwMir "unknown terminator tag"

/-- Read a basic block, mirroring `read_block`. -/
def read_block (fuel : Nat) : ReaderM BasicBlock := do
  let id ← read_u32
  let name ← read_string
  let pred_count ← read_u32
  let predecessors ← readN pred_count read_u32
  let inst_count ← read_u32
  let instructions ← readN inst_count (read_instruction fuel)
  let has_term ← read_u8
  if has_term != 0 then do
    let t ← read_terminator
    pure ⟨id, name, predecessors, instructions, some t⟩
  else
    pure ⟨id, name, predecessors, instructions, none⟩

/-- Read a function, mirroring `read_function`. -/
def read_function (fuel : Nat) : ReaderM Function := do
  let name ← read_string
  let is_public ← read_u8
  let param_count ← read_u32
  let params ← readN param_count (do
    let pname ← read_string
    let pty ← read_type fuel
    let pval ← read_u32
    pure (FunctionParam.mk pname pty pval))
  let return_type ← read_type fuel
  let block_count ← read_u32
  let blocks ← readN block_count (read_block fuel)
  let next_value_id ← read_u32
  let next_block_id ← read_u32
  pure ⟨name, is_public != 0, params, return_type, blocks, next_value_id, next_block_id⟩

/-- Read a struct definition, mirroring `read_struct_def`. -/
def read_struct_def (fuel : Nat) : ReaderM StructDef := do
  let name ← read_string
  let tp_count ← read_u32
  let type_params ← readN tp_count read_string
  let field_count ← read_u32
  let fields ← readN field_count (do
    let fname ← read_string
    let ftype ← read_type fuel
    pure (StructField.mk fname ftype))
  pure ⟨name, type_params, fields⟩

/-- Read an enum definition, mirroring `read_enum_def`. -/
def read_enum_def (fuel : Nat) : ReaderM EnumDef := do
  let name ← read_string
  let tp_count ← read_u32
  let type_params ← readN tp_count read_string
  let var_count ← read_u32
  let variants ← readN var_count (do
    let vname ← read_string
    let pt_count ← read_u32
    let payload_types ← readN pt_count (read_type fuel)
    pure (EnumVariant.mk vname payload_types))
  pure ⟨name, type_params, variants⟩

/-- Verify the magic and major version, mirroring `verify_header`. -/
def verify_header : ReaderM Unit := do
  let magic ← read_u32
  if magic ≠ MIR_MAGIC then
    throwMir "invalid magic"
  else do
    let major ← read_u16
    let _minor ← read_u16
    if major ≠ MIR_VERSION_MAJOR then
      throwMir "version mismatch"
    else
      pure ()

/-- Read a whole module, mirroring `read_module`. -/
def read_module_m (fuel : Nat) : ReaderM Module := do
  verify_header
  let name ← read_string
  let struct_count ← read_u32
  let structs ← readN struct_count (read_struct_def fuel)
  let enum_count ← read_u32
  let enums ← readN enum_count (read_enum_def fuel)
  let func_count ← read_u32
  let functions ← readN func_count (read_function fuel)
  let const_count ← read_u32
  let constants ← readN const_count (do
    let cname ← read_string
    let cval ← read_constant_value
    pure (cname, cval))
  pure ⟨name, structs, enums, functions, constants⟩

/-- Top-level decode of a byte stream, as `MirBinaryReader::new(data)`
followed by `read_module`. The fuel `data.length + 1` strictly exceeds the
possible nesting depth of `read_type`, so the fuel branch is unreachable. -/
def read_module (data : List Nat) : Except BridgeError Module :=
  (read_module_m (data.length + 1) ⟨data, 0⟩).1

/-! ## Reader error classification

Every error constructed anywhere in `mir_reader.rs` is a `MirDeserialize`;
the following predicate and closure lemmas make that an invariant of the
whole reader. -/

/-- A reader result is acceptable when it is a success or a
`MirDeserialize` error. -/
def errIsMir {α : Type} : Except BridgeError α → Prop
  | .error (.mirDeserialize _) => True
  | .error _ => False
  | .ok _ => True

/-- A reader computation whose every outcome is a success or a
`MirDeserialize` error. -/
structure MirSafe {α : Type} (m : ReaderM α) : Prop where
  safe : ∀ r, errIsMir (m r).1

theorem mirSafe_bind {α β : Type} {m : ReaderM α} {f : α → ReaderM β}
    (hm : MirSafe m) (hf : ∀ a, MirSafe (f a)) : MirSafe (m >>= f) := by
  constructor
  intro r
  have hmr := hm.safe r
  show errIsMir ((ReaderM.bind m f) r).1
  unfold ReaderM.bind
  rcases h : m r with ⟨res, r₂⟩
  rw [h] at hmr
  cases res with
  | error e =>
    cases e with
    | mirDeserialize msg => trivial
    | translation msg => exact False.elim hmr
    | codegen msg => exact False.elim hmr
    | unsupportedInstruction msg => exact False.elim hmr
    | invalidTarget msg => exact False.elim hmr
  | ok a => exact (hf a).safe r₂

theorem mirSafe_pure {α : Type} (a : α) : MirSafe (pure a : ReaderM α) :=
  ⟨fun _ => trivial⟩

theorem mirSafe_throwMir {α : Type} (msg : String) : MirSafe (throwMir msg : ReaderM α) :=
  ⟨fun _ => trivial⟩

theorem mirSafe_read_u8 : MirSafe read_u8 := by
  constructor; intro r; unfold read_u8; split <;> trivial

theorem mirSafe_read_u16 : MirSafe read_u16 := by
  constructor; intro r; unfold read_u16; split <;> trivial

theorem mirSafe_read_u32 : MirSafe read_u32 := by
  constructor; intro r; unfold read_u32; split <;> trivial

theorem mirSafe_read_u64 : MirSafe read_u64 := by
  constructor; intro r; unfold read_u64; split <;> trivial

theorem mirSafe_read_i64 : MirSafe read_i64 := by
  constructor; intro r; unfold read_i64; split <;> trivial

theorem mirSafe_read_f64 : MirSafe read_f64 := by
  constructor; intro r; unfold read_f64; split <;> trivial

theorem mirSafe_read_string : MirSafe read_string := by
  unfold read_string
  have h : MirSafe (read_u32 >>= fun len => fun r =>
      if r.pos + len > r.data.length then
        (.error (.mirDeserialize "unexpected EOF reading string"), r)
      else
        (.ok (bytesToString ((r.data.drop r.pos).take len)), ⟨r.data, r.pos + len⟩)) := by
    apply mirSafe_bind mirSafe_read_u32
    intro len
    constructor; intro r; dsimp only; split <;> trivial
  exact h

theorem mirSafe_read_value : MirSafe read_value := by
  unfold read_value
  exact mirSafe_bind mirSafe_read_u32 fun _ => mirSafe_pure _

theorem mirSafe_readN {α : Type} (n : Nat) (m : ReaderM α) (hm : MirSafe m) :
    MirSafe (readN n m) := by
  induction n with
  | zero => exact mirSafe_pure _
  | succ k ih =>
    unfold readN
    exact mirSafe_bind hm fun a => mirSafe_bind ih fun rest => mirSafe_pure _

theorem mirSafe_read_type (fuel : Nat) : MirSafe (read_type fuel) := by
  induction fuel with
  | zero => exact mirSafe_throwMir _
  | succ n ih =>
    unfold read_type
    apply mirSafe_bind mirSafe_read_u8
    intro tag
    split <;>
      repeat' first
        | exact mirSafe_pure _
        | exact mirSafe_throwMir _
        | exact mirSafe_read_u8
        | exact mirSafe_read_u32
        | exact mirSafe_read_u64
        | exact mirSafe_read_string
        | exact ih
        | exact mirSafe_readN _ _ ih
        | apply mirSafe_readN
        | apply mirSafe_bind
        | intro a
        | split

theorem mirSafe_read_constant_value : MirSafe read_constant_value := by
  unfold read_constant_value
  apply mirSafe_bind mirSafe_read_u8
  intro tag
  split <;>
    repeat' first
      | exact mirSafe_pure _
      | exact mirSafe_throwMir _
      | exact mirSafe_read_u8
      | exact mirSafe_read_i64
      | exact mirSafe_read_f64
      | exact mirSafe_read_string
      | apply mirSafe_bind
      | intro a
      | split

theorem mirSafe_read_instruction (fuel : Nat) : MirSafe (read_instruction fuel) := by
  unfold read_instruction
  repeat' first
    | exact mirSafe_pure _
    | exact mirSafe_throwMir _
    | exact mirSafe_read_u8
    | exact mirSafe_read_u32
    | exact mirSafe_read_u64
    | exact mirSafe_read_i64
    | exact mirSafe_read_f64
    | exact mirSafe_read_string
    | exact mirSafe_read_value
    | exact mirSafe_read_constant_value
    | exact mirSafe_read_type fuel
    | apply mirSafe_readN
    | apply mirSafe_bind
    | intro a
    | split

theorem mirSafe_read_terminator : MirSafe read_terminator := by
  unfold read_terminator
  repeat' first
    | exact mirSafe_pure _
    | exact mirSafe_throwMir _
    | exact mirSafe_read_u8
    | exact mirSafe_read_u32
    | exact mirSafe_read_i64
    | exact mirSafe_read_value
    | apply mirSafe_readN
    | apply mirSafe_bind
    | intro a
    | split

theorem mirSafe_read_block (fuel : Nat) : MirSafe (read_block fuel) := by
  unfold read_block
  repeat' first
    | exact mirSafe_pure _
    | exact mirSafe_read_u8
    | exact mirSafe_read_u32
    | exact mirSafe_read_string
    | exact mirSafe_read_instruction fuel
    | exact mirSafe_read_terminator
    | apply mirSafe_readN
    | apply mirSafe_bind
    | intro a
    | split

theorem mirSafe_read_function (fuel : Nat) : MirSafe (read_function fuel) := by
  unfold read_function
  repeat' first
    | exact mirSafe_pure _
    | exact mirSafe_read_u8
    | exact mirSafe_read_u32
    | exact mirSafe_read_string
    | exact mirSafe_read_type fuel
    | exact mirSafe_read_block fuel
    | apply mirSafe_readN
    | apply mirSafe_bind
    | intro a
    | split

theorem mirSafe_read_struct_def (fuel : Nat) : MirSafe (read_struct_def fuel) := by
  unfold read_struct_def
  repeat' first
    | exact mirSafe_pure _
    | exact mirSafe_read_u32
    | exact mirSafe_read_string
    | exact mirSafe_read_type fuel
    | apply mirSafe_readN
    | apply mirSafe_bind
    | intro a
    | split

theorem mirSafe_read_enum_def (fuel : Nat) : MirSafe (read_enum_def fuel) := by
  unfold read_enum_def
  repeat' first
    | exact mirSafe_pure _
    | exact mirSafe_read_u32
    | exact mirSafe_read_string
    | exact mirSafe_read_type fuel
    | apply mirSafe_readN
    | apply mirSafe_bind
    | intro a
    | split

theorem mirSafe_verify_header : MirSafe verify_header := by
  unfold verify_header
  repeat' first
    | exact mirSafe_pure _
    | exact mirSafe_throwMir _
    | exact mirSafe_read_u16
    | exact mirSafe_read_u32
    | apply mirSafe_bind
    | intro a
    | split

theorem mirSafe_read_module_m (fuel : Nat) : MirSafe (read_module_m fuel) := by
  unfold read_module_m
  repeat' first
    | exact mirSafe_pure _
    | exact mirSafe_verify_header
    | exact mirSafe_read_u32
    | exact mirSafe_read_string
    | exact mirSafe_read_constant_value
    | exact mirSafe_read_struct_def fuel
    | exact mirSafe_read_enum_def fuel
    | exact mirSafe_read_function fuel
    | apply mirSafe_readN
    | apply mirSafe_bind
    | intro a
    | split

/-! ## Evaluation lemmas for the reader -/

/-- The little-endian u32 denoted by four bytes of the stream. -/
def u32at (data : List Nat) (pos : Nat) : Nat :=
  data.getD pos 0 + 256 * data.getD (pos + 1) 0 + 65536 * data.getD (pos + 2) 0 +
    16777216 * data.getD (pos + 3) 0

/-- The little-endian u16 denoted by two bytes of the stream. -/
def u16at (data : List Nat) (pos : Nat) : Nat :=
  data.getD pos 0 + 256 * data.getD (pos + 1) 0

theorem readerM_bind_error {α β : Type} {m : ReaderM α} (f : α → ReaderM β)
    {r r₂ : MirBinaryReader} {e : BridgeError}
    (h : m r = (.error e, r₂)) : (m >>= f) r = (.error e, r₂) := by
  show ReaderM.bind m f r = _
  unfold ReaderM.bind
  rw [h]

theorem readerM_bind_ok {α β : Type} {m : ReaderM α} (f : α → ReaderM β)
    {r r₂ : MirBinaryReader} {a : α}
    (h : m r = (.ok a, r₂)) : (m >>= f) r = f a r₂ := by
  show ReaderM.bind m f r = _
  unfold ReaderM.bind
  rw [h]

theorem read_u32_ok_at (data : List Nat) (pos : Nat) (h : pos + 4 ≤ data.length) :
    read_u32 ⟨data, pos⟩ = (.ok (u32at data pos), ⟨data, pos + 4⟩) := by
  unfold read_u32 u32at
  dsimp only
  split
  next hc => exact absurd hc (by omega)
  next hc => rfl

theorem read_u32_err_at (data : List Nat) (pos : Nat) (h : data.length < pos + 4) :
    read_u32 ⟨data, pos⟩ =
      (.error (.mirDeserialize "unexpected EOF reading u32"), ⟨data, pos⟩) := by
  unfold read_u32
  dsimp only
  split
  next hc => rfl
  next hc => exact absurd (by omega : pos + 4 > data.length) hc

theorem read_u16_ok_at (data : List Nat) (pos : Nat) (h : pos + 2 ≤ data.length) :
    read_u16 ⟨data, pos⟩ = (.ok (u16at data pos), ⟨data, pos + 2⟩) := by
  unfold read_u16 u16at
  dsimp only
  split
  next hc => exact absurd hc (by omega)
  next hc => rfl

theorem read_u16_err_at (data : List Nat) (pos : Nat) (h : data.length < pos + 2) :
    read_u16 ⟨data, pos⟩ =
      (.error (.mirDeserialize "unexpected EOF reading u16"), ⟨data, pos⟩) := by
  unfold read_u16
  dsimp only
  split
  next hc => rfl
  next hc => exact absurd (by omega : pos + 2 > data.length) hc

theorem verify_header_magic_bad (data : List Nat) (h4 : 4 ≤ data.length)
    (hm : u32at data 0 ≠ MIR_MAGIC) :
    verify_header ⟨data, 0⟩ = (.error (.mirDeserialize "invalid magic"), ⟨data, 4⟩) := by
  unfold verify_header
  rw [readerM_bind_ok _ (read_u32_ok_at data 0 (by omega))]
  rw [if_pos hm]
  rfl

theorem verify_header_version_bad (data : List Nat) (h8 : 8 ≤ data.length)
    (hm : u32at data 0 = MIR_MAGIC) (hv : u16at data 4 ≠ MIR_VERSION_MAJOR) :
    verify_header ⟨data, 0⟩ =
      (.error (.mirDeserialize "version mismatch"), ⟨data, 8⟩) := by
  unfold verify_header
  rw [readerM_bind_ok _ (read_u32_ok_at data 0 (by omega))]
  rw [if_neg (fun hne => hne hm)]
  rw [readerM_bind_ok _ (read_u16_ok_at data 4 (by omega))]
  rw [readerM_bind_ok _ (read_u16_ok_at data 6 (by omega))]
  rw [if_pos hv]
  rfl

theorem verify_header_short (data : List Nat) (h : data.length < 8) :
    ∃ msg r₂, verify_header ⟨data, 0⟩ = (.error (.mirDeserialize msg), r₂) := by
  by_cases h4 : 4 ≤ data.length
  · by_cases hm : u32at data 0 = MIR_MAGIC
    · unfold verify_header
      rw [readerM_bind_ok _ (read_u32_ok_at data 0 (by omega))]
      rw [if_neg (fun hne => hne hm)]
      by_cases h6 : 6 ≤ data.length
      · rw [readerM_bind_ok _ (read_u16_ok_at data 4 (by omega))]
        rw [readerM_bind_error _ (read_u16_err_at data 6 (by omega))]
        exact ⟨_, _, rfl⟩
      · rw [readerM_bind_error _ (read_u16_err_at data 4 (by omega))]
        exact ⟨_, _, rfl⟩
    · exact ⟨_, _, verify_header_magic_bad data h4 hm⟩
  · unfold verify_header
    rw [readerM_bind_error _ (read_u32_err_at data 0 (by omega))]
    exact ⟨_, _, rfl⟩

theorem read_module_err_of_header {data : List Nat} {msg : String} {r₂ : MirBinaryReader}
    (h : verify_header ⟨data, 0⟩ = (.error (.mirDeserialize msg), r₂)) :
    read_module data = .error (.mirDeserialize msg) := by
  unfold read_module read_module_m
  rw [readerM_bind_error _ h]

/-- C1: for every input byte slice, `read_module` either succeeds with a
`Module` or fails with a `MirDeserialize` error; truncated inputs (in
particular any input shorter than the 8-byte header), a magic word other
than 0x544D4952, and a major version other than 1 each produce a
`MirDeserialize` error; no other error kind is ever returned. -/
theorem read_module_error_classification :
    (∀ data : List Nat,
      (∃ m, read_module data = .ok m) ∨
        (∃ msg, read_module data = .error (.mirDeserialize msg)))
    ∧ (∀ data : List Nat, data.length < 8 →
        ∃ msg, read_module data = .error (.mirDeserialize msg))
    ∧ (∀ data : List Nat, 4 ≤ data.length → u32at data 0 ≠ MIR_MAGIC →
        ∃ msg, read_module data = .error (.mirDeserialize msg))
    ∧ (∀ data : List Nat, 8 ≤ data.length → u32at data 0 = MIR_MAGIC →
        u16at data 4 ≠ MIR_VERSION_MAJOR →
        ∃ msg, read_module data = .error (.mirDeserialize msg)) := by
  refine ⟨?_, ?_, ?_, ?_⟩
  · intro data
    have h : errIsMir (read_module data) :=
      (mirSafe_read_module_m (data.length + 1)).safe ⟨data, 0⟩
    rcases hres : read_module data with e | m
    · rw [hres] at h
      right
      cases e with
      | mirDeserialize msg => exact ⟨msg, rfl⟩
      | translation msg => exact False.elim h
      | codegen msg => exact False.elim h
      | unsupportedInstruction msg => exact False.elim h
      | invalidTarget msg => exact False.elim h
    · exact Or.inl ⟨m, rfl⟩
  · intro data h
    obtain ⟨msg, r₂, hdr⟩ := verify_header_short data h
    exact ⟨msg, read_module_err_of_header hdr⟩
  · intro data h4 hm
    exact ⟨_, read_module_err_of_header (verify_header_magic_bad data h4 hm)⟩
  · intro data h8 hm hv
    exact ⟨_, read_module_err_of_header (verify_header_version_bad data h8 hm hv)⟩

/-- Witness for C1: concrete truncated, wrong-magic and wrong-version
inputs all produce `MirDeserialize` errors. -/
theorem read_module_error_classification_witness :
    (∃ msg, read_module [] = .error (.mirDeserialize msg)) ∧
    (∃ msg, read_module [0, 0, 0, 0, 0, 0, 0, 0] = .error (.mirDeserialize msg)) ∧
    (∃ msg, read_module [0x52, 0x49, 0x4D, 0x54, 2, 0, 0, 0] =
      .error (.mirDeserialize msg)) := by
  refine ⟨?_, ?_, ?_⟩
  · exact read_module_error_classification.2.1 [] (by decide)
  · exact read_module_error_classification.2.2.1 [0, 0, 0, 0, 0, 0, 0, 0] (by decide)
      (by decide)
  · exact read_module_error_classification.2.2.2 [0x52, 0x49, 0x4D, 0x54, 2, 0, 0, 0]
      (by decide) (by decide) (by decide)

/-! ## Claim C9: per-operation stepping of the primitive readers -/

/-- A fixed-width read operation: it preserves the data, leaves `pos`
unchanged on failure, and on success advances `pos` by exactly `k`,
staying within bounds. -/
def StepSpec {α : Type} (m : ReaderM α) (k : Nat) : Prop :=
  ∀ r : MirBinaryReader, r.pos ≤ r.data.length →
    (m r).2.data = r.data ∧
    (∀ e r₂, m r = (.error e, r₂) → r₂.pos = r.pos) ∧
    (∀ a r₂, m r = (.ok a, r₂) → r₂.pos = r.pos + k ∧ r₂.pos ≤ r.data.length)

theorem stepSpec_read_u8 : StepSpec read_u8 1 := by
  intro r h
  obtain ⟨data, pos⟩ := r
  unfold read_u8
  dsimp only at h ⊢
  split
  next hc =>
    refine ⟨rfl, fun e r₂ he => ?_, fun a r₂ ha => ?_⟩
    · cases he; rfl
    · cases ha
  next hc =>
    refine ⟨rfl, fun e r₂ he => ?_, fun a r₂ ha => ?_⟩
    · cases he
    · cases ha
      refine ⟨rfl, ?_⟩
      dsimp only
      omega

theorem stepSpec_read_u16 : StepSpec read_u16 2 := by
  intro r h
  obtain ⟨data, pos⟩ := r
  unfold read_u16
  dsimp only at h ⊢
  split
  next hc =>
    refine ⟨rfl, fun e r₂ he => ?_, fun a r₂ ha => ?_⟩
    · cases he; rfl
    · cases ha
  next hc =>
    refine ⟨rfl, fun e r₂ he => ?_, fun a r₂ ha => ?_⟩
    · cases he
    · cases ha
      refine ⟨rfl, ?_⟩
      dsimp only
      omega

theorem stepSpec_read_u32 : StepSpec read_u32 4 := by
  intro r h
  obtain ⟨data, pos⟩ := r
  unfold read_u32
  dsimp only at h ⊢
  split
  next hc =>
    refine ⟨rfl, fun e r₂ he => ?_, fun a r₂ ha => ?_⟩
    · cases he; rfl
    · cases ha
  next hc =>
    refine ⟨rfl, fun e r₂ he => ?_, fun a r₂ ha => ?_⟩
    · cases he
    · cases ha
      refine ⟨rfl, ?_⟩
      dsimp only
      omega

theorem stepSpec_read_u64 : StepSpec read_u64 8 := by
  intro r h
  obtain ⟨data, pos⟩ := r
  unfold read_u64
  dsimp only at h ⊢
  split
  next hc =>
    refine ⟨rfl, fun e r₂ he => ?_, fun a r₂ ha => ?_⟩
    · cases he; rfl
    · cases ha
  next hc =>
    refine ⟨rfl, fun e r₂ he => ?_, fun a r₂ ha => ?_⟩
    · cases he
    · cases ha
      refine ⟨rfl, ?_⟩
      dsimp only
      omega

theorem stepSpec_read_i64 : StepSpec read_i64 8 := by
  intro r h
  obtain ⟨data, pos⟩ := r
  unfold read_i64
  dsimp only at h ⊢
  split
  next hc =>
    refine ⟨rfl, fun e r₂ he => ?_, fun a r₂ ha => ?_⟩
    · cases he; rfl
    · cases ha
  next hc =>
    refine ⟨rfl, fun e r₂ he => ?_, fun a r₂ ha => ?_⟩
    · cases he
    · cases ha
      refine ⟨rfl, ?_⟩
      dsimp only
      omega

theorem stepSpec_read_f64 : StepSpec read_f64 8 := by
  intro r h
  obtain ⟨data, pos⟩ := r
  unfold read_f64
  dsimp only at h ⊢
  split
  next hc =>
    refine ⟨rfl, fun e r₂ he => ?_, fun a r₂ ha => ?_⟩
    · cases he; rfl
    · cases ha
  next hc =>
    refine ⟨rfl, fun e r₂ he => ?_, fun a r₂ ha => ?_⟩
    · cases he
    · cases ha
      refine ⟨rfl, ?_⟩
      dsimp only
      omega

/-- C9 counterexample: `read_string` on a stream holding only a length
prefix fails with `pos` advanced to 4, not left at 0 — the claim that
every failing primitive read leaves `pos` unchanged is false. -/
theorem read_string_moves_pos_on_truncated_body :
    (read_string ⟨[2, 0, 0, 0], 0⟩).1 =
      .error (.mirDeserialize "unexpected EOF reading string") ∧
    (read_string ⟨[2, 0, 0, 0], 0⟩).2.pos = 4 ∧ (4 : Nat) ≠ 0 :=
  ⟨rfl, rfl, by decide⟩

theorem bytesToString_length (bs : List Nat) : (bytesToString bs).length = bs.length := by
  unfold bytesToString
  rw [show (String.mk (bs.map Char.ofNat)).length = (bs.map Char.ofNat).length from rfl,
    List.length_map]

/-- C9 (amended): each fixed-width primitive read preserves the data,
fails leaving `pos` unchanged, or succeeds advancing `pos` by exactly its
width, staying in bounds; `read_string` can additionally fail with `pos`
advanced by exactly its 4-byte length prefix (still in bounds), and on
success advances `pos` by exactly 4 plus the length of the returned
string, staying in bounds. No byte outside the slice is accessed: the
final position never exceeds the length. -/
theorem reader_primitive_step_spec :
    StepSpec read_u8 1 ∧ StepSpec read_u16 2 ∧ StepSpec read_u32 4 ∧
    StepSpec read_u64 8 ∧ StepSpec read_i64 8 ∧ StepSpec read_f64 8 ∧
    (∀ r : MirBinaryReader, r.pos ≤ r.data.length →
      (read_string r).2.data = r.data ∧
      (∀ e r₂, read_string r = (.error e, r₂) →
        r₂.pos = r.pos ∨ (r₂.pos = r.pos + 4 ∧ r₂.pos ≤ r.data.length)) ∧
      (∀ s r₂, read_string r = (.ok s, r₂) →
        r₂.pos = r.pos + 4 + s.length ∧ r₂.pos ≤ r.data.length)) := by
  refine ⟨stepSpec_read_u8, stepSpec_read_u16, stepSpec_read_u32, stepSpec_read_u64,
    stepSpec_read_i64, stepSpec_read_f64, ?_⟩
  intro r h
  obtain ⟨data, pos⟩ := r
  dsimp only at h ⊢
  unfold read_string
  by_cases h4 : pos + 4 ≤ data.length
  · rw [show ReaderM.bind read_u32 _ ⟨data, pos⟩ =
        (fun (len : Nat) => fun (r : MirBinaryReader) =>
          if r.pos + len > r.data.length then
            ((.error (.mirDeserialize "unexpected EOF reading string") :
              Except BridgeError String), r)
          else
            (.ok (bytesToString ((r.data.drop r.pos).take len)), ⟨r.data, r.pos + len⟩))
          (u32at data pos) ⟨data, pos + 4⟩ from by
      unfold ReaderM.bind
      rw [read_u32_ok_at data pos h4]]
    dsimp only
    split
    next hc =>
      refine ⟨rfl, ?_, ?_⟩
      · intro e r₂ he; cases he; refine Or.inr ⟨rfl, ?_⟩; dsimp only; omega
      · intro s r₂ hs; cases hs
    next hc =>
      refine ⟨rfl, ?_, ?_⟩
      · intro e r₂ he; cases he
      · intro s r₂ hs
        cases hs
        refine ⟨?_, ?_⟩
        · dsimp only
          rw [bytesToString_length, List.length_take, List.length_drop]
          omega
        · dsimp only
          omega
  · rw [show ReaderM.bind read_u32 _ ⟨data, pos⟩ =
        ((.error (.mirDeserialize "unexpected EOF reading u32") :
          Except BridgeError String), ⟨data, pos⟩) from by
      unfold ReaderM.bind
      rw [read_u32_err_at data pos (by omega)]]
    refine ⟨rfl, ?_, ?_⟩
    · intro e r₂ he; cases he; exact Or.inl rfl
    · intro s r₂ hs; cases hs

/-- Witness for C9: the stepping theorem applied to a concrete reader
state. -/
theorem reader_primitive_step_spec_witness :
    (read_u8 ⟨[7], 0⟩).2.data = ([7] : List Nat) ∧
    (∀ e r₂, read_u8 ⟨[7], 0⟩ = (.error e, r₂) → r₂.pos = 0) ∧
    (∀ a r₂, read_u8 ⟨[7], 0⟩ = (.ok a, r₂) →
      r₂.pos = 0 + 1 ∧ r₂.pos ≤ ([7] : List Nat).length) :=
  reader_primitive_step_spec.1 ⟨[7], 0⟩ (by decide)

/-! ## Claim C5: the decoder is not injective -/

/-- A minimal well-formed MIR stream: magic, major 1, minor 0, empty name,
zero structs, enums, functions and constants. -/
def mirStreamMinor0 : List Nat :=
  [0x52, 0x49, 0x4D, 0x54, 1, 0, 0, 0,
   0, 0, 0, 0, 0, 0, 0, 0, 0, 0, 0, 0, 0, 0, 0, 0, 0, 0, 0, 0]

/-- The same stream with minor version 1 instead of 0 (byte 6 changed). -/
def mirStreamMinor1 : List Nat :=
  [0x52, 0x49, 0x4D, 0x54, 1, 0, 1, 0,
   0, 0, 0, 0, 0, 0, 0, 0, 0, 0, 0, 0, 0, 0, 0, 0, 0, 0, 0, 0]

/-- C5 counterexample: the decoder is not injective — two distinct
well-formed streams decode to the same `Module`, so equal decode results
do not imply byte-equal streams. -/
theorem read_module_not_injective :
    ¬ (∀ (d1 d2 : List Nat) (m : Module),
        read_module d1 = .ok m → read_module d2 = .ok m → d1 = d2) := by
  intro h
  have heq := h mirStreamMinor0 mirStreamMinor1 ⟨"", [], [], [], []⟩ rfl rfl
  exact absurd heq (by decide)

/-- C5 (amended): the decoder is a function of the byte stream but not an
injective one: the minor-version field is read and ignored, so the two
well-formed streams below — equal everywhere except byte 6, inside the
minor-version field — both decode successfully to the same `Module`. -/
theorem read_module_ignores_minor_version :
    read_module mirStreamMinor0 = .ok ⟨"", [], [], [], []⟩ ∧
    read_module mirStreamMinor1 = .ok ⟨"", [], [], [], []⟩ ∧
    mirStreamMinor0 ≠ mirStreamMinor1 ∧
    mirStreamMinor0.length = mirStreamMinor1.length ∧
    mirStreamMinor0.take 6 = mirStreamMinor1.take 6 ∧
    mirStreamMinor0.drop 7 = mirStreamMinor1.drop 7 :=
  ⟨rfl, rfl, by decide, by decide, by decide, by decide⟩

/-! ## Type mapping (`types.rs`) -/

/-- Cranelift scalar types used by the bridge. -/
inductive CLType where
  | i8 | i16 | i32 | i64 | i128 | f32 | f64
deriving Repr, DecidableEq

/-- Integer test, mirroring `cranelift Type::is_int`. -/
def CLType.is_int : CLType → Bool
  | .i8 | .i16 | .i32 | .i64 | .i128 => true
  | _ => false

/-- Byte width, mirroring `cranelift Type::bytes`. -/
def CLType.bytes : CLType → Nat
  | .i8 => 1
  | .i16 => 2
  | .i32 => 4
  | .i64 => 8
  | .i128 => 16
  | .f32 => 4
  | .f64 => 8

/-- Bit width, mirroring `cranelift Type::bits`. -/
def CLType.bits : CLType → Nat
  | .i8 => 8
  | .i16 => 16
  | .i32 => 32
  | .i64 => 64
  | .i128 => 128
  | .f32 => 32
  | .f64 => 64

/-- Pointer type for the target, mirroring `types.rs POINTER_TYPE`. -/
def POINTER_TYPE : CLType := .i64

/-- Map a MIR primitive to a Cranelift type, mirroring
`primitive_to_cranelift`. -/
def primitive_to_cranelift : PrimitiveType → Option CLType
  | .unit => none
  | .bool => some .i8
  | .i8 | .u8 => some .i8
  | .i16 | .u16 => some .i16
  | .i32 | .u32 => some .i32
  | .i64 | .u64 => some .i64
  | .i128 | .u128 => some .i128
  | .f32 => some .f32
  | .f64 => some .f64
  | .ptr | .str => some POINTER_TYPE

/-- Map a MIR type to a Cranelift type, mirroring `mir_type_to_cranelift`. -/
def mir_type_to_cranelift : MirType → Option CLType
  | .primitive p => primitive_to_cranelift p
  | .pointer _ _ => some POINTER_TYPE
  | .slice _ => some POINTER_TYPE
  | .struct _ _ | .enum _ _ | .tuple _ | .array _ _ => some POINTER_TYPE
  | .function _ _ => some POINTER_TYPE

/-- Round `value` up using the source expression
`(value + alignment - 1) & !(alignment - 1)` with u32 semantics,
mirroring `align_to`. -/
def align_to (value alignment : Nat) : Nat :=
  if alignment = 0 then value
  else Nat.land ((value + alignment - 1) % 2^32) ((2^32 - 1) - ((alignment - 1) % 2^32))

/-- Compute alignment of a MIR type, mirroring `type_alignment`. -/
def type_alignment : MirType → Nat
  | .primitive p =>
    match p with
    | .unit => 1
    | .bool => 1
    | .i8 | .u8 => 1
    | .i16 | .u16 => 2
    | .i32 | .u32 => 4
    | .i64 | .u64 => 8
    | .i128 | .u128 => 16
    | .f32 => 4
    | .f64 => 8
    | .ptr | .str => 8
  | .pointer _ _ | .slice _ | .function _ _ => 8
  | .array _ element => type_alignment element
  | .tuple elements => ((elements.attach.map fun e => type_alignment e.1).max?).getD 1
  | .struct _ _ | .enum _ _ => 8
decreasing_by
  all_goals simp
  all_goals (have h := List.sizeOf_lt_of_mem e.2; omega)

/-- Compute the size in bytes of a MIR type, mirroring `type_size`.
The u32 arithmetic of the source wraps; the embedding applies `% 2^32`
at each u32 operation. -/
def type_size : MirType → Nat
  | .primitive p =>
    match p with
    | .unit => 0
    | .bool => 1
    | .i8 | .u8 => 1
    | .i16 | .u16 => 2
    | .i32 | .u32 => 4
    | .i64 | .u64 => 8
    | .i128 | .u128 => 16
    | .f32 => 4
    | .f64 => 8
    | .ptr | .str => 8
  | .pointer _ _ => 8
  | .slice _ => 16
  | .function _ _ => 8
  | .array size element => Nat.max ((type_size element * (size % 2^32)) % 2^32) 1
  | .tuple elements =>
    let parts := elements.attach.map fun e => (type_alignment e.1, type_size e.1)
    let offset := parts.foldl (fun off p => (align_to off p.1 + p.2) % 2^32) 0
    let max_align := ((parts.map Prod.fst).max?).getD 1
    align_to offset max_align
  | .struct _ _ | .enum _ _ => 8
decreasing_by
  all_goals simp
  all_goals (have h := List.sizeOf_lt_of_mem e.2; omega)

/-- The offsets/size accumulation loop of `compute_struct_layout`:
carries the running offset and the running maximum alignment. -/
def layoutGo : List MirType → Nat → Nat → List Nat × Nat × Nat
  | [], offset, max_align => ([], offset, max_align)
  | ft :: rest, offset, max_align =>
    let align := type_alignment ft
    let off := align_to offset align
    let res := layoutGo rest ((off + type_size ft) % 2^32) (max max_align align)
    (off :: res.1, res.2)

/-- Compute field offsets and the padded total size for a struct,
mirroring `compute_struct_layout`. -/
def compute_struct_layout (field_types : List MirType) : List Nat × Nat :=
  let res := layoutGo field_types 0 1
  (res.1, align_to res.2.1 res.2.2)

/-! ## Claim C8: `compute_struct_layout` places fields at their natural
alignment and pads the total to the maximum field alignment. -/

/-- The least multiple of `a` that is at least `x`, written as the
spec describes the rounding: divide rounding up, then multiply. -/
def roundUpMult (a x : Nat) : Nat := a * ((x + a - 1) / a)

theorem land_two_pow_mask {x k w : Nat} (hk : k ≤ w) (hx : x < 2^w) :
    Nat.land x (2^w - 2^k) = x - x % 2^k := by
  have h1 : 2^w - 2^k = (2^(w-k) - 1) <<< k := by
    rw [Nat.shiftLeft_eq, Nat.sub_mul, one_mul, ← Nat.pow_add]
    congr 2
    omega
  have h2 : x - x % 2^k = (x >>> k) <<< k := by
    rw [Nat.shiftRight_eq_div_pow, Nat.shiftLeft_eq]
    have h := Nat.div_add_mod x (2^k)
    have hc : x / 2^k * 2^k = 2^k * (x / 2^k) := Nat.mul_comm _ _
    omega
  rw [h1, h2]
  apply Nat.eq_of_testBit_eq
  intro i
  rw [show Nat.land x ((2^(w-k) - 1) <<< k) = x &&& ((2^(w-k) - 1) <<< k) from rfl]
  rw [Nat.testBit_and, Nat.testBit_shiftLeft, Nat.testBit_shiftLeft,
    Nat.testBit_shiftRight, Nat.testBit_two_pow_sub_one]
  by_cases hik : k ≤ i
  · have hki : k + (i - k) = i := by omega
    rw [hki]
    by_cases hiw : i < w
    · simp [ge_iff_le, hik, show i - k < w - k by omega]
    · have hxi : x.testBit i = false :=
        Nat.testBit_lt_two_pow
          (lt_of_lt_of_le hx (Nat.pow_le_pow_right (by norm_num) (by omega)))
      simp [hxi, ge_iff_le, hik, show ¬(i - k < w - k) by omega]
  · simp [ge_iff_le, hik]

theorem align_to_eq {k : Nat} (v : Nat) (hk : k ≤ 4) (hv : v + 2^k ≤ 2^32) :
    align_to v (2^k) = roundUpMult (2^k) v := by
  have hpos : 0 < 2^k := Nat.two_pow_pos k
  have hk32 : (2:Nat)^k ≤ 2^32 := Nat.pow_le_pow_right (by norm_num) (by omega)
  unfold align_to roundUpMult
  rw [if_neg (by omega)]
  have hb : (v + 2^k - 1) % 2^32 = v + 2^k - 1 := Nat.mod_eq_of_lt (by omega)
  have ha : ((2:Nat)^k - 1) % 2^32 = 2^k - 1 := Nat.mod_eq_of_lt (by omega)
  rw [hb, ha]
  have hmask : (2^32 - 1) - ((2:Nat)^k - 1) = 2^32 - 2^k := by omega
  rw [hmask]
  rw [land_two_pow_mask (by omega : k ≤ 32) (by omega : v + 2^k - 1 < 2^32)]
  have h := Nat.div_add_mod (v + 2^k - 1) (2^k)
  omega

/-- The value `roundUpMult a x` is the least multiple of `a` that is at least `x`:
this is exactly the placement rule of the specification. -/
theorem roundUpMult_spec (a x : Nat) (ha : 0 < a) :
    a ∣ roundUpMult a x ∧ x ≤ roundUpMult a x ∧
      ∀ m, a ∣ m → x ≤ m → roundUpMult a x ≤ m := by
  refine ⟨Dvd.intro _ rfl, ?_, ?_⟩
  · have h := Nat.div_add_mod (x + a - 1) a
    have hlt : (x + a - 1) % a < a := Nat.mod_lt _ ha
    unfold roundUpMult
    omega
  · intro m hdvd hxm
    obtain ⟨q, rfl⟩ := hdvd
    unfold roundUpMult
    have hq : (x + a - 1) / a < q + 1 := by
      rw [Nat.div_lt_iff_lt_mul ha]
      have hexp : (q + 1) * a = a * q + a := by ring
      omega
    exact Nat.mul_le_mul_left a (Nat.lt_succ_iff.mp hq)

theorem roundUpMult_lt (a x : Nat) (ha : 0 < a) : roundUpMult a x < x + a := by
  unfold roundUpMult
  have h := Nat.div_add_mod (x + a - 1) a
  have hlt : (x + a - 1) % a < a := Nat.mod_lt _ ha
  omega

/-- The alignments produced by `type_alignment` are the powers of two
from 1 to 16. -/
def IsAl (x : Nat) : Prop := ∃ k, k ≤ 4 ∧ x = 2^k

theorem IsAl.one_le {x : Nat} (h : IsAl x) : 1 ≤ x := by
  obtain ⟨k, _, rfl⟩ := h
  exact Nat.two_pow_pos k

theorem IsAl.le_sixteen {x : Nat} (h : IsAl x) : x ≤ 16 := by
  obtain ⟨k, hk, rfl⟩ := h
  calc (2:Nat)^k ≤ 2^4 := Nat.pow_le_pow_right (by norm_num) hk
    _ = 16 := by norm_num

theorem IsAl.max {a b : Nat} (ha : IsAl a) (hb : IsAl b) : IsAl (max a b) := by
  obtain ⟨k1, hk1, rfl⟩ := ha
  obtain ⟨k2, hk2, rfl⟩ := hb
  rcases le_total k1 k2 with h | h
  · rw [max_eq_right (Nat.pow_le_pow_right (by norm_num) h)]
    exact ⟨k2, hk2, rfl⟩
  · rw [max_eq_left (Nat.pow_le_pow_right (by norm_num) h)]
    exact ⟨k1, hk1, rfl⟩

theorem isAl_foldl_max :
    ∀ (l : List Nat) (a : Nat), (∀ x ∈ l, IsAl x) → IsAl a → IsAl (l.foldl max a)
  | [], a, _, hb => hb
  | x :: xs, a, hl, hb =>
    isAl_foldl_max xs (max a x) (fun y hy => hl y (List.mem_cons_of_mem x hy))
      (hb.max (hl x (List.mem_cons_self x xs)))

theorem max?_mem_nat {l : List Nat} {m : Nat} (h : l.max? = some m) : m ∈ l :=
  List.max?_mem (fun a b => max_choice a b) h

theorem type_alignment_isAl : (t : MirType) → IsAl (type_alignment t)
  | .primitive p => by
    cases p
    case unit => exact ⟨0, by norm_num, by norm_num [type_alignment]⟩
    case bool => exact ⟨0, by norm_num, by norm_num [type_alignment]⟩
    case i8 => exact ⟨0, by norm_num, by norm_num [type_alignment]⟩
    case u8 => exact ⟨0, by norm_num, by norm_num [type_alignment]⟩
    case i16 => exact ⟨1, by norm_num, by norm_num [type_alignment]⟩
    case u16 => exact ⟨1, by norm_num, by norm_num [type_alignment]⟩
    case i32 => exact ⟨2, by norm_num, by norm_num [type_alignment]⟩
    case u32 => exact ⟨2, by norm_num, by norm_num [type_alignment]⟩
    case i64 => exact ⟨3, by norm_num, by norm_num [type_alignment]⟩
    case u64 => exact ⟨3, by norm_num, by norm_num [type_alignment]⟩
    case i128 => exact ⟨4, by norm_num, by norm_num [type_alignment]⟩
    case u128 => exact ⟨4, by norm_num, by norm_num [type_alignment]⟩
    case f32 => exact ⟨2, by norm_num, by norm_num [type_alignment]⟩
    case f64 => exact ⟨3, by norm_num, by norm_num [type_alignment]⟩
    case ptr => exact ⟨3, by norm_num, by norm_num [type_alignment]⟩
    case str => exact ⟨3, by norm_num, by norm_num [type_alignment]⟩
  | .pointer m pt => ⟨3, by norm_num, by norm_num [type_alignment]⟩
  | .slice e => ⟨3, by norm_num, by norm_num [type_alignment]⟩
  | .function ps rt => ⟨3, by norm_num, by norm_num [type_alignment]⟩
  | .struct n ta => ⟨3, by norm_num, by norm_num [type_alignment]⟩
  | .enum n ta => ⟨3, by norm_num, by norm_num [type_alignment]⟩
  | .array sz element => by
    have h := type_alignment_isAl element
    simpa [type_alignment] using h
  | .tuple elements => by
    simp only [type_alignment, List.attach_map_val]
    rcases hmax : (List.map type_alignment elements).max? with _ | m
    · exact ⟨0, by norm_num, by simp⟩
    · have hm := max?_mem_nat hmax
      obtain ⟨t, ht, heq⟩ := List.mem_map.mp hm
      have h := type_alignment_isAl t
      rw [heq] at h
      simpa using h
decreasing_by
  all_goals simp
  all_goals first
    | (have h := List.sizeOf_lt_of_mem e.2; omega)
    | (have h := List.sizeOf_lt_of_mem ht; omega)

/-- The per-field placement of the specification: each field goes at the
least multiple of its alignment at or after the end of the previous
field; returns the offsets and the end of the last field. -/
def layoutSpec : List MirType → Nat → List Nat × Nat
  | [], off => ([], off)
  | t :: rest, off =>
    let o := roundUpMult (type_alignment t) off
    let res := layoutSpec rest (o + type_size t)
    (o :: res.1, res.2)

/-- The layout function as the specification words it: natural-alignment
placement, total padded to the maximum field alignment. -/
def compute_struct_layout_specF (fts : List MirType) : List Nat × Nat :=
  let res := layoutSpec fts 0
  (res.1, roundUpMult ((fts.map type_alignment).foldl max 1) res.2)

/-- Total of sizes plus alignments; bounding it rules out u32 overflow. -/
def sumSizeAlign (fts : List MirType) : Nat :=
  (fts.map fun t => type_size t + type_alignment t).sum

theorem layoutSpec_length : ∀ (fts : List MirType) (off : Nat),
    (layoutSpec fts off).1.length = fts.length
  | [], _ => rfl
  | t :: rest, off => by simp [layoutSpec, layoutSpec_length rest]

theorem layoutGo_eq_spec :
    ∀ (fts : List MirType) (offset maxA : Nat),
      offset + sumSizeAlign fts + 16 ≤ 2^32 → IsAl maxA →
      layoutGo fts offset maxA =
        ((layoutSpec fts offset).1, (layoutSpec fts offset).2,
          (fts.map type_alignment).foldl max maxA)
      ∧ (layoutSpec fts offset).2 ≤ offset + sumSizeAlign fts := by
  intro fts
  induction fts with
  | nil =>
    intro offset maxA hb hm
    exact ⟨rfl, by simp [layoutSpec, sumSizeAlign]⟩
  | cons ft rest ih =>
    intro offset maxA hb hm
    have hal := type_alignment_isAl ft
    have h1 := hal.one_le
    have h16 := hal.le_sixteen
    have hsum : sumSizeAlign (ft :: rest) =
        type_size ft + type_alignment ft + sumSizeAlign rest := by
      simp [sumSizeAlign]
    obtain ⟨k, hk4, hkeq⟩ := hal
    have halign : align_to offset (type_alignment ft) =
        roundUpMult (type_alignment ft) offset := by
      rw [hkeq]
      exact align_to_eq offset hk4 (by rw [← hkeq]; omega)
    have ho_lt : roundUpMult (type_alignment ft) offset < offset + type_alignment ft :=
      roundUpMult_lt _ _ (by omega)
    have hmod : (roundUpMult (type_alignment ft) offset + type_size ft) % 2^32 =
        roundUpMult (type_alignment ft) offset + type_size ft :=
      Nat.mod_eq_of_lt (by omega)
    have hbound2 : roundUpMult (type_alignment ft) offset + type_size ft +
        sumSizeAlign rest + 16 ≤ 2^32 := by omega
    have hm2 : IsAl (max maxA (type_alignment ft)) := hm.max ⟨k, hk4, hkeq⟩
    obtain ⟨ihEq, ihLe⟩ :=
      ih (roundUpMult (type_alignment ft) offset + type_size ft)
        (max maxA (type_alignment ft)) hbound2 hm2
    constructor
    · show layoutGo (ft :: rest) offset maxA = _
      simp only [layoutGo, layoutSpec, halign, hmod, ihEq, List.map_cons, List.foldl_cons]
    · simp only [layoutSpec]
      omega

/-- C8: `compute_struct_layout` returns one offset per field; under a
no-overflow bound it coincides with the specification layout — each
offset is the round-up of the preceding end to the field alignment, and
the total is the end of the last field rounded up to the maximum field
alignment — where the round-up `roundUpMult a x` is exactly the smallest
multiple of `a` that is at least `x`. -/
theorem compute_struct_layout_matches_spec (fts : List MirType)
    (hbound : sumSizeAlign fts + 16 ≤ 2^32) :
    compute_struct_layout fts = compute_struct_layout_specF fts ∧
    (compute_struct_layout fts).1.length = fts.length ∧
    (∀ a x, 0 < a →
      a ∣ roundUpMult a x ∧ x ≤ roundUpMult a x ∧
        ∀ m, a ∣ m → x ≤ m → roundUpMult a x ≤ m) := by
  obtain ⟨hEq, hLe⟩ := layoutGo_eq_spec fts 0 1 (by omega) ⟨0, by norm_num, rfl⟩
  have hfold : IsAl ((fts.map type_alignment).foldl max 1) := by
    apply isAl_foldl_max
    · intro x hx
      obtain ⟨t, ht, rfl⟩ := List.mem_map.mp hx
      exact type_alignment_isAl t
    · exact ⟨0, by norm_num, rfl⟩
  obtain ⟨kf, hkf, hkfeq⟩ := hfold
  have hfold16 : (fts.map type_alignment).foldl max 1 ≤ 16 :=
    IsAl.le_sixteen ⟨kf, hkf, hkfeq⟩
  have hEnd : (layoutSpec fts 0).2 ≤ sumSizeAlign fts := by
    have := hLe
    omega
  have hfinal : align_to (layoutSpec fts 0).2 ((fts.map type_alignment).foldl max 1) =
      roundUpMult ((fts.map type_alignment).foldl max 1) (layoutSpec fts 0).2 := by
    rw [hkfeq]
    exact align_to_eq _ hkf (by rw [← hkfeq]; omega)
  refine ⟨?_, ?_, fun a x ha => roundUpMult_spec a x ha⟩
  · unfold compute_struct_layout compute_struct_layout_specF
    rw [hEq]
    simp only [hfinal]
  · unfold compute_struct_layout
    rw [hEq]
    simpa using layoutSpec_length fts 0

/-- Witness for C8: the layout of a struct with fields `(i8, i32, i16)`
is offsets `[0, 4, 8]` with total size `12`. -/
theorem compute_struct_layout_matches_spec_witness :
    compute_struct_layout
        [.primitive .i8, .primitive .i32, .primitive .i16] =
      compute_struct_layout_specF
        [.primitive .i8, .primitive .i32, .primitive .i16] ∧
    compute_struct_layout
        [.primitive .i8, .primitive .i32, .primitive .i16] = ([0, 4, 8], 12) := by
  have hb : sumSizeAlign [.primitive .i8, .primitive .i32, .primitive .i16] + 16 ≤ 2^32 := by
    norm_num [sumSizeAlign, type_size, type_alignment]
  have h := (compute_struct_layout_matches_spec
    [.primitive .i8, .primitive .i32, .primitive .i16] hb).1
  refine ⟨h, ?_⟩
  rw [h]
  norm_num [compute_struct_layout_specF, layoutSpec, roundUpMult, type_size, type_alignment]

/-! ## Claim C3: the Alloca case of `translate_instruction` -/

/-- A Cranelift stack slot as built by `make_stack_slot`: an explicit
slot of the given size with align shift 0. -/
structure StackSlotData where
  size : Nat
  align_shift : Nat
deriving Repr, DecidableEq

/-- Mirrors `translate.rs make_stack_slot`. -/
def make_stack_slot (size : Nat) : StackSlotData := ⟨size, 0⟩

/-- A value produced while lowering an instruction; only the shape the
Alloca path produces is needed here. -/
inductive EmitVal where
  | stackAddr (ty : CLType) (slot : Nat) (offset : Int)
deriving Repr, DecidableEq

/-- The translator state the Alloca case touches: the created stack
slots (`builder.create_sized_stack_slot`), the `alloca_slots` map and the
`values` map. A fresh slot gets the next index. -/
structure AllocaState where
  slots : List StackSlotData
  alloca_slots : List (Nat × Nat)
  values : List (Nat × EmitVal)
deriving Repr, DecidableEq

/-- The Alloca arm of `translate_instruction`: compute
`size = type_size(alloc_type)`, create a stack slot of that size, record
the slot under the result id, and bind the result id to
`stack_addr(POINTER_TYPE, slot, 0)`. -/
def translate_alloca (st : AllocaState) (result_id : Nat) (alloc_type : MirType) :
    AllocaState :=
  let size := type_size alloc_type
  let slot := st.slots.length
  { slots := st.slots ++ [make_stack_slot size],
    alloca_slots := (result_id, slot) :: st.alloca_slots,
    values := (result_id, EmitVal.stackAddr POINTER_TYPE slot 0) :: st.values }

/-- C3 counterexample: an Alloca of `Bool` creates a stack slot of
exactly `type_size Bool = 1` byte; the claimed minimum of 8 bytes is not
applied on the Alloca path. -/
theorem translate_alloca_bool_no_minimum :
    (translate_alloca ⟨[], [], []⟩ 0 (.primitive .bool)).slots.map StackSlotData.size
      = [1] ∧
    Nat.max (type_size (.primitive .bool)) 8 = 8 ∧ (1 : Nat) ≠ 8 := by
  refine ⟨?_, ?_, by decide⟩
  · simp [translate_alloca, make_stack_slot, type_size]
  · norm_num [type_size]

/-- C3 (amended): every translated Alloca creates a stack slot of size
exactly `type_size alloc_type` — with no 8-byte minimum — and binds the
instruction result to the address of that slot at offset 0. -/
theorem translate_alloca_slot (st : AllocaState) (result_id : Nat) (t : MirType) :
    (translate_alloca st result_id t).slots =
      st.slots ++ [make_stack_slot (type_size t)] ∧
    (make_stack_slot (type_size t)).size = type_size t ∧
    (translate_alloca st result_id t).values.head? =
      some (result_id, EmitVal.stackAddr POINTER_TYPE st.slots.length 0) ∧
    (translate_alloca st result_id t).alloca_slots.head? =
      some (result_id, st.slots.length) :=
  ⟨rfl, rfl, rfl, rfl⟩

/-! ## Claim C4: φ block arguments for missing predecessor edges -/

/-- A Cranelift SSA value with its type (`dfg.value_type`). -/
structure CValue where
  id : Nat
  ty : CLType
deriving Repr, DecidableEq

/-- A block argument as emitted by `collect_phi_args`: an existing value
passed through (possibly coerced) or a freshly materialized constant. -/
inductive PhiArg where
  | passed (v : CValue)
  | sextendTo (ty : CLType) (v : CValue)
  | ireduceTo (ty : CLType) (v : CValue)
  | iconstZero (ty : CLType)
  | f32constZero
  | f64constZero
deriving Repr, DecidableEq

/-- Infer the Cranelift type of a φ from its incoming values, mirroring
`infer_phi_type`: the first incoming value with a known type wins, with an
I64 fallback. -/
def infer_phi_type (blocks : List BasicBlock) (value_types : Nat → Option CLType)
    (result_id : Nat) : CLType :=
  (blocks.findSome? fun block =>
    block.instructions.findSome? fun inst =>
      if inst.result == result_id then
        match inst.inst with
        | .phi incoming => incoming.findSome? fun vb => value_types vb.1.id
        | _ => none
      else none).getD .i64

/-- The argument chosen for one φ of the target block, mirroring the loop
body of `collect_phi_args`: find the incoming entry for the source block;
pass (coercing ints) a translated value, emit a typed zero (with float
handling) for a known edge whose value is untranslated, and emit an
integer zero — of the φ type when that is an integer type, of type I64
otherwise — when no entry matches the source block. The source function
wraps this in `BridgeResult` but returns `Ok` on every path. -/
def phi_arg_for (values : Nat → Option CValue) (from_block_id : Nat)
    (expected_ty : CLType) (incoming : List (Nat × Nat)) : PhiArg :=
  match incoming.find? (fun p => p.2 == from_block_id) with
  | some p =>
    match values p.1 with
    | some v =>
      if v.ty = expected_ty then .passed v
      else if v.ty.is_int && expected_ty.is_int then
        if v.ty.bytes < expected_ty.bytes then .sextendTo expected_ty v
        else .ireduceTo expected_ty v
      else .passed v
    | none =>
      if expected_ty.is_int then .iconstZero expected_ty
      else if expected_ty = .f32 then .f32constZero
      else if expected_ty = .f64 then .f64constZero
      else .iconstZero .i64
  | none =>
    if expected_ty.is_int then .iconstZero expected_ty
    else .iconstZero .i64

/-- Collect the block arguments for the φs of the target block, mirroring
`collect_phi_args`: the φ records of the target block, in order, each
paired with the corresponding block-parameter type. -/
def collect_phi_args (phis : List (Nat × List (Nat × Nat)))
    (param_types : List CLType) (values : Nat → Option CValue)
    (from_block_id : Nat) : List PhiArg :=
  phis.enum.map fun pe =>
    phi_arg_for values from_block_id (param_types.getD pe.1 .i64) pe.2.2

/-- Zero constant of a given type, as the claim words it. -/
def zeroConstOf (ty : CLType) : PhiArg :=
  if ty.is_int then .iconstZero ty
  else if ty = .f32 then .f32constZero
  else .f64constZero

/-- C4 counterexample: a φ whose inferred type is F32 and whose incoming
list has no entry for the branching predecessor receives an I64 integer
zero as block argument, not a zero constant of the inferred F32 type. -/
theorem collect_phi_args_missing_edge_float :
    infer_phi_type [⟨0, "entry", [], [⟨9, .phi [(⟨5⟩, 3)]⟩], none⟩]
      (fun n => if n = 5 then some .f32 else none) 9 = .f32 ∧
    collect_phi_args [(9, [(5, 3)])] [.f32] (fun _ => none) 7 =
      [.iconstZero .i64] ∧
    zeroConstOf .f32 = .f32constZero ∧
    (PhiArg.iconstZero .i64) ≠ .f32constZero :=
  ⟨rfl, rfl, rfl, by decide⟩

/-- C4 (amended): a branch from block P to a target whose i-th φ has no
incoming entry for P still translates (the collection never fails), and
the i-th block argument is an integer zero: of the block-parameter
type when that type is an integer type, and of type I64 when it is a
float type. -/
theorem collect_phi_args_missing_edge (phis : List (Nat × List (Nat × Nat)))
    (param_types : List CLType) (values : Nat → Option CValue) (fb : Nat)
    (i : Nat) (rid : Nat) (incoming : List (Nat × Nat))
    (hget : phis.get? i = some (rid, incoming))
    (hnone : ∀ p ∈ incoming, p.2 ≠ fb) :
    (collect_phi_args phis param_types values fb).get? i =
      some (if (param_types.getD i .i64).is_int
            then PhiArg.iconstZero (param_types.getD i .i64)
            else PhiArg.iconstZero .i64) := by
  unfold collect_phi_args
  rw [List.get?_map, List.get?_enum, hget, Option.map_some']
  show some (phi_arg_for values fb (param_types.getD i .i64) incoming) = _
  unfold phi_arg_for
  rw [List.find?_eq_none.mpr (fun p hp => by simp [hnone p hp])]

/-- Witness for C4: the missing-edge theorem at a concrete φ with an F32
parameter type. -/
theorem collect_phi_args_missing_edge_witness :
    (collect_phi_args [(9, [(5, 3)])] [.f32] (fun _ => none) 7).get? 0 =
      some (if (([.f32] : List CLType).getD 0 .i64).is_int
            then PhiArg.iconstZero (([.f32] : List CLType).getD 0 .i64)
            else PhiArg.iconstZero .i64) :=
  collect_phi_args_missing_edge [(9, [(5, 3)])] [.f32] (fun _ => none) 7 0 9
    [(5, 3)] rfl (by decide)

/-! ## Claim C7: symbol resolution -/

/-- Rust `str::starts_with` on the character sequence. -/
def starts_with (s p : String) : Bool := p.toList.isPrefixOf s.toList

/-- The fixed C runtime name set, mirroring `init_runtime_names`. -/
def runtime_names : List String :=
  ["print", "println", "panic", "assert_tml", "assert_tml_loc",
   "print_i32", "print_i64", "print_f32", "print_f64", "print_bool", "print_char",
   "str_len", "str_eq", "str_hash", "str_concat", "str_concat_opt",
   "str_concat_3", "str_concat_4", "str_concat_n",
   "str_substring", "str_slice", "str_contains", "str_starts_with", "str_ends_with",
   "str_to_upper", "str_to_lower", "str_trim", "str_char_at", "char_to_string",
   "time_ms", "time_us", "time_ns", "sleep_ms", "sleep_us",
   "elapsed_ms", "elapsed_us", "elapsed_ns",
   "mem_alloc", "mem_alloc_zeroed", "mem_realloc", "mem_free",
   "mem_copy", "mem_move", "mem_set", "mem_zero", "mem_compare", "mem_eq",
   "tml_set_output_suppressed", "tml_get_output_suppressed",
   "tml_run_should_panic", "tml_get_panic_message", "tml_panic_message_contains"]

/-- Mirrors `ModuleTranslator::resolve_symbol_name`: keep a name that already
starts with "tml_", keep a runtime name, prefix everything else. -/
def ModuleTranslator.resolve_symbol_name (runtime : List String)
    (mir_name : String) : String :=
  if starts_with mir_name "tml_" then mir_name
  else if runtime.contains mir_name then mir_name
  else "tml_" ++ mir_name

/-- Mirrors `FunctionTranslator::resolve_symbol_name`: the call-site copy of the
same rule. -/
def FunctionTranslator.resolve_symbol_name (runtime : List String)
    (mir_name : String) : String :=
  if starts_with mir_name "tml_" then mir_name
  else if runtime.contains mir_name then mir_name
  else "tml_" ++ mir_name

/-- C7: the declaration-side and call-site symbol resolvers agree on
every name, and both implement the three-case rule: a name starting with
"tml_" is unchanged, a name from the fixed C runtime set is unchanged,
and every other name gets "tml_" prepended. -/
theorem resolve_symbol_name_uniform (mir_name : String) :
    ModuleTranslator.resolve_symbol_name runtime_names mir_name =
      FunctionTranslator.resolve_symbol_name runtime_names mir_name ∧
    (starts_with mir_name "tml_" = true →
      ModuleTranslator.resolve_symbol_name runtime_names mir_name = mir_name) ∧
    (starts_with mir_name "tml_" = false → runtime_names.contains mir_name = true →
      ModuleTranslator.resolve_symbol_name runtime_names mir_name = mir_name) ∧
    (starts_with mir_name "tml_" = false → runtime_names.contains mir_name = false →
      ModuleTranslator.resolve_symbol_name runtime_names mir_name =
        "tml_" ++ mir_name) := by
  refine ⟨rfl, ?_, ?_, ?_⟩
  · intro hs
    unfold ModuleTranslator.resolve_symbol_name
    rw [if_pos hs]
  · intro hs hc
    unfold ModuleTranslator.resolve_symbol_name
    rw [if_neg (by simp [hs]), if_pos hc]
  · intro hs hc
    unfold ModuleTranslator.resolve_symbol_name
    rw [if_neg (by simp [hs]), if_neg (by rw [hc]; simp)]

/-- Witness for C7: a user name gets the prefix, a runtime name and an
already-prefixed name stay unchanged. -/
theorem resolve_symbol_name_uniform_witness :
    ModuleTranslator.resolve_symbol_name runtime_names "main" = "tml_main" ∧
    ModuleTranslator.resolve_symbol_name runtime_names "println" = "println" ∧
    ModuleTranslator.resolve_symbol_name runtime_names "tml_foo" = "tml_foo" := by
  refine ⟨?_, ?_, ?_⟩
  · exact (resolve_symbol_name_uniform "main").2.2.2 (by decide) (by decide)
  · exact (resolve_symbol_name_uniform "println").2.2.1 (by decide) (by decide)
  · exact (resolve_symbol_name_uniform "tml_foo").2.1 (by decide)

/-! ## Claim C6: duplicate-declaration disambiguation and latest-wins -/

/-- A Cranelift function signature: parameter and return types. -/
structure Signature where
  params : List CLType
  returns : List CLType
deriving Repr, DecidableEq

/-- Linkage of a declaration. -/
inductive Linkage where
  | exportL | localL | importL
deriving Repr, DecidableEq

/-- Search the declared symbols for a name, returning its id (declaration
index) and signature. -/
def findDecl : List (String × Signature × Linkage) → String → Nat →
    Option (Nat × Signature)
  | [], _, _ => none
  | d :: rest, sym, i =>
    if d.1 == sym then some (i, d.2.1) else findDecl rest sym (i + 1)

/-- The backend object module, modelling `cranelift_module`:
`declare_function` returns the existing id when the symbol is already
declared with the same signature, rejects a redeclaration with a
different signature, and otherwise appends a fresh declaration. The real
backend merges linkages and never rejects on linkage; the model keeps the
first linkage. -/
structure BackendModule where
  decls : List (String × Signature × Linkage)
deriving Repr, DecidableEq

def BackendModule.declare_function (m : BackendModule) (sym : String)
    (linkage : Linkage) (sig : Signature) : Except Unit (Nat × BackendModule) :=
  match findDecl m.decls sym 0 with
  | some is => if is.2 = sig then .ok (is.1, m) else .error ()
  | none => .ok (m.decls.length, ⟨m.decls ++ [(sym, sig, linkage)]⟩)

/-- The position-weighted hash of a list of bit widths — the hash
`declare_function` computes over `sig.params`:
`sum over i of (i + 1) * bits(i)`. -/
def weighted_bits_hash (bits : List Nat) : Nat :=
  (bits.enum.map fun p => (p.1 + 1) * p.2).sum

/-- The disambiguated symbol synthesized on a signature conflict,
mirroring the `format!` in `declare_function`: parameter count, the
weighted hash of the parameter bit widths, and the plain sum of the
return bit widths. -/
def unique_symbol (symbol_name : String) (sig : Signature) : String :=
  symbol_name ++ "$" ++ toString sig.params.length ++ "p" ++
    toString (weighted_bits_hash (sig.params.map CLType.bits)) ++ "r" ++
    toString ((sig.returns.map CLType.bits).sum)

/-- The function-id map of the translator: `HashMap::insert` overwrites,
modelled by consing and first-match lookup. -/
def insertFuncId (l : List (String × Nat)) (k : String) (v : Nat) :
    List (String × Nat) := (k, v) :: l

/-- Call-site lookup, as `translate_call` looks up `func_ids`. -/
def lookupFuncId (l : List (String × Nat)) (k : String) : Option Nat :=
  (l.find? fun p => p.1 == k).map (·.2)

/-- The translator state used by the declaration phase. -/
structure ModuleTranslatorState where
  backend : BackendModule
  func_ids : List (String × Nat)
deriving Repr, DecidableEq

/-- Build the Cranelift signature of a MIR function, mirroring
`build_signature`: unit-typed parameters and returns are dropped. -/
def build_signature (func : Function) : Signature :=
  ⟨func.params.filterMap fun p => mir_type_to_cranelift p.ty,
   (mir_type_to_cranelift func.return_type).toList⟩

/-- Declare one function, mirroring `ModuleTranslator::declare_function`:
resolve the symbol, pick the linkage, and on a duplicate MIR name whose
redeclaration the backend rejects, synthesize the unique symbol and
declare under it; the MIR name maps to the latest id. -/
def declare_function (mt : ModuleTranslatorState) (func : Function) :
    Except BridgeError ModuleTranslatorState :=
  let sig := build_signature func
  let symbol_name := ModuleTranslator.resolve_symbol_name runtime_names func.name
  let linkage := if func.is_public || func.name == "main" || func.name == "tml_main"
    then Linkage.exportL else Linkage.localL
  if (lookupFuncId mt.func_ids func.name).isSome then
    match mt.backend.declare_function symbol_name linkage sig with
    | .ok ib => .ok ⟨ib.2, insertFuncId mt.func_ids func.name ib.1⟩
    | .error _ =>
      let unique_sym := unique_symbol symbol_name sig
      match mt.backend.declare_function unique_sym linkage sig with
      | .ok ib =>
        .ok ⟨ib.2, insertFuncId (insertFuncId mt.func_ids func.name ib.1) unique_sym ib.1⟩
      | .error _ => .error (.codegen "failed to declare function")
  else
    match mt.backend.declare_function symbol_name linkage sig with
    | .ok ib =>
      if symbol_name ≠ func.name then
        .ok ⟨ib.2, insertFuncId (insertFuncId mt.func_ids func.name ib.1) symbol_name ib.1⟩
      else
        .ok ⟨ib.2, insertFuncId mt.func_ids func.name ib.1⟩
    | .error _ => .error (.codegen "failed to declare function")

theorem build_signature_returns_le_one (func : Function) :
    (build_signature func).returns.length ≤ 1 := by
  unfold build_signature
  cases mir_type_to_cranelift func.return_type <;> simp

theorem weighted_bits_hash_eq_sum_of_le_one (l : List Nat) (h : l.length ≤ 1) :
    weighted_bits_hash l = l.sum := by
  match l with
  | [] => rfl
  | [x] => simp [weighted_bits_hash]
  | x :: y :: rest => simp at h

theorem findDecl_none_of_fresh (sym : String) :
    ∀ (decls : List (String × Signature × Linkage)) (i : Nat),
      (∀ d ∈ decls, d.1 ≠ sym) → findDecl decls sym i = none
  | [], _, _ => rfl
  | d :: rest, i, h => by
    unfold findDecl
    rw [if_neg (by simp [h d (List.mem_cons_self d rest)])]
    exact findDecl_none_of_fresh sym rest (i + 1)
      (fun x hx => h x (List.mem_cons_of_mem d hx))

theorem lookupFuncId_double_insert (l : List (String × Nat)) (k1 k2 : String)
    (v : Nat) : lookupFuncId (insertFuncId (insertFuncId l k1 v) k2 v) k1 = some v := by
  unfold lookupFuncId insertFuncId
  by_cases h : k2 == k1
  · simp [List.find?, h]
  · simp [List.find?, h]

/-- C6: when a function with an already-declared MIR name is declared and
the backend rejects the redeclaration (different signature), it is
declared under `base$<p>p<phash>r<rhash>` where `p` is the parameter
count and `phash`/`rhash` are the same deterministic position-weighted
hash of the parameter/return bit widths (they coincide on returns
because a signature has at most one return); afterwards, call-site
lookup by the MIR name yields the id of this most recent declaration. -/
theorem declare_function_duplicate_disambiguates
    (mt : ModuleTranslatorState) (func : Function)
    (hdup : (lookupFuncId mt.func_ids func.name).isSome = true)
    (hreject : mt.backend.declare_function
        (ModuleTranslator.resolve_symbol_name runtime_names func.name)
        (if func.is_public || func.name == "main" || func.name == "tml_main"
          then Linkage.exportL else Linkage.localL)
        (build_signature func) = .error ())
    (hfresh : ∀ d ∈ mt.backend.decls,
      d.1 ≠ unique_symbol
        (ModuleTranslator.resolve_symbol_name runtime_names func.name)
        (build_signature func)) :
    declare_function mt func =
      .ok ⟨⟨mt.backend.decls ++
              [(unique_symbol
                  (ModuleTranslator.resolve_symbol_name runtime_names func.name)
                  (build_signature func),
                build_signature func,
                if func.is_public || func.name == "main" || func.name == "tml_main"
                  then Linkage.exportL else Linkage.localL)]⟩,
            insertFuncId
              (insertFuncId mt.func_ids func.name mt.backend.decls.length)
              (unique_symbol
                (ModuleTranslator.resolve_symbol_name runtime_names func.name)
                (build_signature func))
              mt.backend.decls.length⟩ ∧
    unique_symbol
        (ModuleTranslator.resolve_symbol_name runtime_names func.name)
        (build_signature func) =
      ModuleTranslator.resolve_symbol_name runtime_names func.name ++ "$" ++
        toString (build_signature func).params.length ++ "p" ++
        toString (weighted_bits_hash ((build_signature func).params.map CLType.bits)) ++
        "r" ++
        toString (weighted_bits_hash ((build_signature func).returns.map CLType.bits)) ∧
    (∀ mt2, declare_function mt func = .ok mt2 →
      lookupFuncId mt2.func_ids func.name = some mt.backend.decls.length) := by
  have hfreshDecl : mt.backend.declare_function
      (unique_symbol (ModuleTranslator.resolve_symbol_name runtime_names func.name)
        (build_signature func))
      (if func.is_public || func.name == "main" || func.name == "tml_main"
        then Linkage.exportL else Linkage.localL)
      (build_signature func) =
      .ok (mt.backend.decls.length,
        ⟨mt.backend.decls ++
          [(unique_symbol (ModuleTranslator.resolve_symbol_name runtime_names func.name)
              (build_signature func),
            build_signature func,
            if func.is_public || func.name == "main" || func.name == "tml_main"
              then Linkage.exportL else Linkage.localL)]⟩) := by
    unfold BackendModule.declare_function
    rw [findDecl_none_of_fresh _ _ 0 hfresh]
  have hmain : declare_function mt func =
      .ok ⟨⟨mt.backend.decls ++
              [(unique_symbol
                  (ModuleTranslator.resolve_symbol_name runtime_names func.name)
                  (build_signature func),
                build_signature func,
                if func.is_public || func.name == "main" || func.name == "tml_main"
                  then Linkage.exportL else Linkage.localL)]⟩,
            insertFuncId
              (insertFuncId mt.func_ids func.name mt.backend.decls.length)
              (unique_symbol
                (ModuleTranslator.resolve_symbol_name runtime_names func.name)
                (build_signature func))
              mt.backend.decls.length⟩ := by
    unfold declare_function
    rw [if_pos hdup, hreject]
    dsimp only
    rw [hfreshDecl]
  refine ⟨hmain, ?_, ?_⟩
  · have hle : ((build_signature func).returns.map CLType.bits).length ≤ 1 := by
      rw [List.length_map]
      exact build_signature_returns_le_one func
    unfold unique_symbol
    rw [weighted_bits_hash_eq_sum_of_le_one
      ((build_signature func).returns.map CLType.bits) hle]
  · intro mt2 h2
    rw [hmain] at h2
    cases h2
    exact lookupFuncId_double_insert mt.func_ids func.name _ mt.backend.decls.length

/-- Witness for C6: a second `id` function with signature `(f64) -> f64`
conflicting with a prior `(i32) -> i32` declaration under `tml_id` is
declared successfully, and lookup by the MIR name yields the new id 1. -/
theorem declare_function_duplicate_disambiguates_witness :
    ∃ mt2,
      declare_function
          ⟨⟨[("tml_id", ⟨[.i32], [.i32]⟩, .localL)]⟩, [("id", 0)]⟩
          ⟨"id", false, [⟨"x", .primitive .f64, 0⟩], .primitive .f64, [], 1, 1⟩ =
        .ok mt2 ∧
      lookupFuncId mt2.func_ids "id" = some 1 := by
  have h := declare_function_duplicate_disambiguates
    ⟨⟨[("tml_id", ⟨[.i32], [.i32]⟩, .localL)]⟩, [("id", 0)]⟩
    ⟨"id", false, [⟨"x", .primitive .f64, 0⟩], .primitive .f64, [], 1, 1⟩
    rfl rfl (by decide)
  exact ⟨_, h.1, h.2.2 _ h.1⟩

/-! ## Claim C10: CGU-mode selection of functions to define -/

instance : Inhabited Function :=
  ⟨⟨"", false, [], .primitive .unit, [], 0, 0⟩⟩

/-- The phase-2 definition loop of `translate_module` in CGU mode: walk
the supplied indices in order; an index at or past the function count is
skipped silently (`if i < mir.functions.len()`), and a function whose
name is already in the `defined_funcs` set is skipped; the rest are
defined in order. Returns the indices actually defined. The loop itself
raises no error for skipped entries. -/
def define_selection (funcs : List Function) : List Nat → List String → List Nat
  | [], _ => []
  | i :: rest, defined =>
    if h : i < funcs.length then
      if (funcs.get ⟨i, h⟩).name ∈ defined then define_selection funcs rest defined
      else i :: define_selection funcs rest ((funcs.get ⟨i, h⟩).name :: defined)
    else define_selection funcs rest defined

theorem define_selection_cons (funcs : List Function) (i : Nat) (rest : List Nat)
    (defined : List String) :
    define_selection funcs (i :: rest) defined =
      if h : i < funcs.length then
        if (funcs.get ⟨i, h⟩).name ∈ defined then define_selection funcs rest defined
        else i :: define_selection funcs rest ((funcs.get ⟨i, h⟩).name :: defined)
      else define_selection funcs rest defined := rfl

theorem define_selection_filter_invalid (funcs : List Function) :
    ∀ (idxs : List Nat) (defined : List String),
      define_selection funcs idxs defined =
        define_selection funcs (idxs.filter fun i => decide (i < funcs.length)) defined
  | [], _ => rfl
  | i :: rest, defined => by
    by_cases h : i < funcs.length
    · rw [show (i :: rest).filter (fun i => decide (i < funcs.length)) =
          i :: rest.filter (fun i => decide (i < funcs.length)) from by
        simp [List.filter, h]]
      rw [define_selection_cons, define_selection_cons, dif_pos h, dif_pos h]
      by_cases hm : (funcs.get ⟨i, h⟩).name ∈ defined
      · rw [if_pos hm, if_pos hm, define_selection_filter_invalid funcs rest defined]
      · rw [if_neg hm, if_neg hm,
          define_selection_filter_invalid funcs rest ((funcs.get ⟨i, h⟩).name :: defined)]
    · rw [show (i :: rest).filter (fun i => decide (i < funcs.length)) =
          rest.filter (fun i => decide (i < funcs.length)) from by
        simp [List.filter, h]]
      rw [define_selection_cons, dif_neg h,
        define_selection_filter_invalid funcs rest defined]

theorem define_selection_names_nodup (funcs : List Function) :
    ∀ (idxs : List Nat) (defined : List String),
      ((define_selection funcs idxs defined).map
          fun i => (funcs.getD i default).name).Nodup ∧
      (∀ n, n ∈ ((define_selection funcs idxs defined).map
          fun i => (funcs.getD i default).name) → n ∉ defined)
  | [], _ => ⟨List.nodup_nil, by simp [define_selection]⟩
  | i :: rest, defined => by
    rw [define_selection_cons]
    by_cases h : i < funcs.length
    · rw [dif_pos h]
      by_cases hm : (funcs.get ⟨i, h⟩).name ∈ defined
      · rw [if_pos hm]
        exact define_selection_names_nodup funcs rest defined
      · rw [if_neg hm]
        have hgd : (funcs.getD i default).name = (funcs.get ⟨i, h⟩).name := by
          rw [List.getD_eq_getElem?_getD, List.getElem?_eq_getElem h]
          rfl
        obtain ⟨ihn, ihd⟩ :=
          define_selection_names_nodup funcs rest ((funcs.get ⟨i, h⟩).name :: defined)
        refine ⟨?_, ?_⟩
        · rw [List.map_cons, hgd]
          refine List.Nodup.cons ?_ ihn
          intro hmem
          exact (ihd _ hmem) (List.mem_cons_self _ _)
        · intro n hn
          rw [List.map_cons, hgd] at hn
          rcases List.mem_cons.mp hn with hEq | hTail
          · rw [hEq]; exact hm
          · intro hd
            exact (ihd n hTail) (List.mem_cons_of_mem _ hd)
    · rw [dif_neg h]
      exact define_selection_names_nodup funcs rest defined

theorem define_selection_covers (funcs : List Function) :
    ∀ (idxs : List Nat) (defined : List String) (j : Nat), j ∈ idxs →
      ∀ (hj : j < funcs.length),
        (funcs.get ⟨j, hj⟩).name ∈ defined ∨
        (funcs.get ⟨j, hj⟩).name ∈ ((define_selection funcs idxs defined).map
          fun i => (funcs.getD i default).name)
  | [], _, j, hj, _ => absurd hj (List.not_mem_nil j)
  | i :: rest, defined, j, hjmem, hj => by
    rw [define_selection_cons]
    by_cases h : i < funcs.length
    · rw [dif_pos h]
      by_cases hm : (funcs.get ⟨i, h⟩).name ∈ defined
      · rw [if_pos hm]
        rcases List.mem_cons.mp hjmem with rfl | htail
        · exact Or.inl hm
        · exact define_selection_covers funcs rest defined j htail hj
      · rw [if_neg hm]
        have hgd : (funcs.getD i default).name = (funcs.get ⟨i, h⟩).name := by
          rw [List.getD_eq_getElem?_getD, List.getElem?_eq_getElem h]
          rfl
        rcases List.mem_cons.mp hjmem with rfl | htail
        · right
          rw [List.map_cons, hgd]
          exact List.mem_cons_self _ _
        · rcases define_selection_covers funcs rest
            ((funcs.get ⟨i, h⟩).name :: defined) j htail hj with hIn | hSel
          · rcases List.mem_cons.mp hIn with hEq | hD
            · right
              rw [List.map_cons, hgd, hEq]
              exact List.mem_cons_self _ _
            · exact Or.inl hD
          · right
            rw [List.map_cons]
            exact List.mem_cons_of_mem _ hSel
    · rw [dif_neg h]
      rcases List.mem_cons.mp hjmem with rfl | htail
      · exact absurd hj h
      · exact define_selection_covers funcs rest defined j htail hj

/-- C10: in CGU mode the definition loop (a) behaves exactly as if every
out-of-range index were absent from the supplied list, raising no error
for them, (b) never defines two functions with the same MIR name — a
second requested function with an already-defined name is skipped — and
(c) still defines, for every validly requested index, a function of that
name (the first requested one). -/
theorem translate_module_cgu_selection (funcs : List Function) (idxs : List Nat) :
    define_selection funcs idxs [] =
      define_selection funcs (idxs.filter fun i => decide (i < funcs.length)) [] ∧
    ((define_selection funcs idxs []).map
        fun i => (funcs.getD i default).name).Nodup ∧
    (∀ j, j ∈ idxs → ∀ (hj : j < funcs.length),
      (funcs.get ⟨j, hj⟩).name ∈ ((define_selection funcs idxs []).map
        fun i => (funcs.getD i default).name)) := by
  refine ⟨define_selection_filter_invalid funcs idxs [],
    (define_selection_names_nodup funcs idxs []).1, ?_⟩
  intro j hjmem hj
  rcases define_selection_covers funcs idxs [] j hjmem hj with hIn | hSel
  · exact absurd hIn (List.not_mem_nil _)
  · exact hSel

/-- Witness for C10: with three functions named `f`, `g`, `f` and the
request `[0, 5, 2, 1]` (5 out of range, index 2 repeating the name `f`),
exactly the functions at indices 0 and 1 are defined. -/
theorem translate_module_cgu_selection_witness :
    define_selection
        [⟨"f", false, [], .primitive .unit, [], 0, 0⟩,
         ⟨"g", false, [], .primitive .unit, [], 0, 0⟩,
         ⟨"f", false, [], .primitive .unit, [], 0, 0⟩]
        [0, 5, 2, 1] [] = [0, 1] ∧
    ("g" ∈ ((define_selection
        [⟨"f", false, [], .primitive .unit, [], 0, 0⟩,
         ⟨"g", false, [], .primitive .unit, [], 0, 0⟩,
         ⟨"f", false, [], .primitive .unit, [], 0, 0⟩]
        [0, 5, 2, 1] []).map
          fun i => (([⟨"f", false, [], .primitive .unit, [], 0, 0⟩,
            ⟨"g", false, [], .primitive .unit, [], 0, 0⟩,
            ⟨"f", false, [], .primitive .unit, [], 0, 0⟩] : List Function).getD
              i default).name)) := by
  constructor
  · rfl
  · exact (translate_module_cgu_selection
      [⟨"f", false, [], .primitive .unit, [], 0, 0⟩,
       ⟨"g", false, [], .primitive .unit, [], 0, 0⟩,
       ⟨"f", false, [], .primitive .unit, [], 0, 0⟩]
      [0, 5, 2, 1]).2.2 1 (by decide) (by decide)

/-! ## Claim C2: the FFI result struct (`lib.rs`) -/

/-- The C-layout result struct, mirroring `CraneliftResult`; a null raw
pointer is `none`, an owned buffer or C string is `some`. -/
structure CraneliftResult where
  success : Int
  data : Option (List Nat)
  data_len : Nat
  ir_text : Option String
  ir_text_len : Nat
  error_msg : Option String
deriving Repr, DecidableEq

/-- Mirrors `CString::new(s).unwrap_or_default()`: a string with an interior NUL
byte falls back to the empty C string, otherwise the bytes are kept; the
result is never a null pointer. -/
def cStringOrDefault (s : String) : String :=
  if s.toList.contains (Char.ofNat 0) then "" else s

/-- Mirrors `CraneliftResult::success_with_data`. -/
def CraneliftResult.success_with_data (data : List Nat) : CraneliftResult :=
  ⟨1, some data, data.length, none, 0, none⟩

/-- Mirrors `CraneliftResult::success_with_ir`; the length is the byte
length of the C string without its terminator. -/
def CraneliftResult.success_with_ir (ir : String) : CraneliftResult :=
  ⟨1, none, 0, some (cStringOrDefault ir), (cStringOrDefault ir).length, none⟩

/-- Mirrors `CraneliftResult::error`. -/
def CraneliftResult.error (msg : String) : CraneliftResult :=
  ⟨0, none, 0, none, 0, some (cStringOrDefault msg)⟩

/-- The outcome of the Rust body behind an FFI entry: a normal result, a
`BridgeError`, or a panic caught by `catch_and_convert`. -/
inductive CompOutcome (α : Type) where
  | ok (a : α)
  | err (e : BridgeError)
  | panicked (msg : String)

/-- Mirrors `cranelift_compile_mir`: null or empty input is rejected before the
body runs; otherwise the outcome of the body (including a trapped panic,
reported with a `PANIC:` prefix) is converted to a result struct. -/
def cranelift_compile_mir (mir_data : Option (List Nat))
    (impl : CompOutcome (List Nat)) : CraneliftResult :=
  match mir_data with
  | none => .error "null or empty MIR data"
  | some d =>
    if d.length = 0 then .error "null or empty MIR data"
    else
      match impl with
      | .ok obj_bytes => .success_with_data obj_bytes
      | .err e => .error e.toMessage
      | .panicked msg => .error ("PANIC: " ++ msg)

/-- Mirrors `cranelift_compile_mir_cgu`: same conversion; the index list only
selects which functions the body compiles. -/
def cranelift_compile_mir_cgu (mir_data : Option (List Nat))
    (func_indices : Option (List Nat)) (impl : CompOutcome (List Nat)) :
    CraneliftResult :=
  match mir_data with
  | none => .error "null or empty MIR data"
  | some d =>
    if d.length = 0 then .error "null or empty MIR data"
    else
      match func_indices, impl with
      | _, .ok obj_bytes => .success_with_data obj_bytes
      | _, .err e => .error e.toMessage
      | _, .panicked msg => .error ("PANIC: " ++ msg)

/-- Mirrors `cranelift_generate_ir`: same conversion with an IR-text success. -/
def cranelift_generate_ir (mir_data : Option (List Nat))
    (impl : CompOutcome String) : CraneliftResult :=
  match mir_data with
  | none => .error "null or empty MIR data"
  | some d =>
    if d.length = 0 then .error "null or empty MIR data"
    else
      match impl with
      | .ok ir_text => .success_with_ir ir_text
      | .err e => .error e.toMessage
      | .panicked msg => .error ("PANIC: " ++ msg)

/-- The claimed shape of every returned result: success 1 with a null
error message, or success 0 with a non-null error message and null
data/ir_text with zero lengths. -/
def resultInvariant (r : CraneliftResult) : Prop :=
  (r.success = 1 ∧ r.error_msg = none) ∨
  (r.success = 0 ∧ r.error_msg ≠ none ∧ r.data = none ∧ r.data_len = 0 ∧
    r.ir_text = none ∧ r.ir_text_len = 0)

theorem resultInvariant_error (msg : String) :
    resultInvariant (CraneliftResult.error msg) :=
  Or.inr ⟨rfl, by simp [CraneliftResult.error], rfl, rfl, rfl, rfl⟩

/-- C2: every result any FFI entry point returns satisfies exactly one of
the two shapes — success 1 with null `error_msg`, or success 0 with
non-null `error_msg` and null `data`/`ir_text` with zero lengths — and in
particular no result ever has success 1 together with a non-null
`error_msg`. -/
theorem ffi_result_exclusive :
    (∀ (mir_data : Option (List Nat)) (impl : CompOutcome (List Nat)),
      resultInvariant (cranelift_compile_mir mir_data impl)) ∧
    (∀ (mir_data : Option (List Nat)) (idxs : Option (List Nat))
        (impl : CompOutcome (List Nat)),
      resultInvariant (cranelift_compile_mir_cgu mir_data idxs impl)) ∧
    (∀ (mir_data : Option (List Nat)) (impl : CompOutcome String),
      resultInvariant (cranelift_generate_ir mir_data impl)) ∧
    (∀ r : CraneliftResult, resultInvariant r →
      ¬(r.success = 1 ∧ r.error_msg ≠ none)) := by
  refine ⟨?_, ?_, ?_, ?_⟩
  · intro mir_data impl
    unfold cranelift_compile_mir
    rcases mir_data with _ | d
    · exact resultInvariant_error _
    · dsimp only
      split
      · exact resultInvariant_error _
      · rcases impl with a | e | msg
        · exact Or.inl ⟨rfl, rfl⟩
        · exact resultInvariant_error _
        · exact resultInvariant_error _
  · intro mir_data idxs impl
    unfold cranelift_compile_mir_cgu
    rcases mir_data with _ | d
    · exact resultInvariant_error _
    · dsimp only
      split
      · exact resultInvariant_error _
      · rcases impl with a | e | msg
        · exact Or.inl ⟨rfl, rfl⟩
        · exact resultInvariant_error _
        · exact resultInvariant_error _
  · intro mir_data impl
    unfold cranelift_generate_ir
    rcases mir_data with _ | d
    · exact resultInvariant_error _
    · dsimp only
      split
      · exact resultInvariant_error _
      · rcases impl with a | e | msg
        · exact Or.inl ⟨rfl, rfl⟩
        · exact resultInvariant_error _
        · exact resultInvariant_error _
  · intro r hr hcontra
    rcases hr with ⟨_, hnone⟩ | ⟨hzero, _⟩
    · exact hcontra.2 hnone
    · rw [hcontra.1] at hzero
      exact absurd hzero (by norm_num)

/-- Witness for C2: the exclusivity applied to a concrete error result of
`cranelift_compile_mir` on a null input. -/
theorem ffi_result_exclusive_witness :
    resultInvariant (cranelift_compile_mir none (.ok [])) ∧
    ¬((cranelift_compile_mir none (.ok [])).success = 1 ∧
      (cranelift_compile_mir none (.ok [])).error_msg ≠ none) :=
  ⟨ffi_result_exclusive.1 none (.ok []),
   ffi_result_exclusive.2.2.2 (cranelift_compile_mir none (.ok []))
     (ffi_result_exclusive.1 none (.ok []))⟩

end Tml
